import Mathlib

/-!
Verification development for the shopmcp MCP server (`mcp-server/`).

The Python source is shallowly embedded: JSON-like Python values become the
`PyVal` inductive, machine integers become `Int`/`Nat` (no overflow is
possible at the quantities involved), Python `float` and `decimal.Decimal`
values are represented by exact rationals (every concrete input used in a
theorem below is a dyadic value on which Python float arithmetic is exact),
SQL state becomes explicit record states, and `async` functions become pure
state-passing functions.  Each definition is translated from the named
function in the source tree; doc comments name the origin.
-/

/- ===================== 1. Python string primitives ===================== -/

/-- Python `str.strip()` (whitespace at both ends removed), acting on the
character list of the string. -/
def pyStrip (s : String) : String :=
  String.mk (((s.data.dropWhile Char.isWhitespace).reverse.dropWhile Char.isWhitespace).reverse)

/-- Python `str.lower()` restricted to the ASCII case mapping used by the
slugs, keys and tokens this server manipulates. -/
def pyLower (s : String) : String :=
  String.mk (s.data.map Char.toLower)

/-- Python `needle in haystack` substring containment. -/
def containsSub (s pat : String) : Bool :=
  decide (pat.data <:+: s.data)

/-- Python string `<` : lexicographic comparison by code point. -/
def lexLtB : List Char → List Char → Bool
  | [], [] => false
  | [], _ :: _ => true
  | _ :: _, [] => false
  | a :: as, b :: bs => if a.toNat < b.toNat then true else if b.toNat < a.toNat then false else lexLtB as bs

/-- Python string `<=` : lexicographic comparison by code point. -/
def lexLeB (a b : List Char) : Bool := !(lexLtB b a)

/-- Python string `<` on `String`. -/
def strLtB (a b : String) : Bool := lexLtB a.data b.data

/-- Python string `<=` on `String`. -/
def strLeB (a b : String) : Bool := lexLeB a.data b.data

/-- Python `str.replace(",", "")` as used by the price parsers: drop every
comma. -/
def dropCommas (s : String) : String :=
  String.mk (s.data.filter (fun c => c ≠ ','))

/- ===================== 2. Python JSON-like values ===================== -/

/-- A Python value as it appears in the tool payloads: `None`, `bool`,
`int`, `float` (exact rational), `decimal.Decimal` (exact rational),
`str`, `list`, `dict` with string keys (association list in insertion
order, keys unique as in a Python dict). -/
inductive PyVal where
  | none : PyVal
  | bool (b : Bool) : PyVal
  | int (n : ℤ) : PyVal
  | float (q : ℚ) : PyVal
  | dec (q : ℚ) : PyVal
  | str (s : String) : PyVal
  | list (xs : List PyVal) : PyVal
  | obj (kvs : List (String × PyVal)) : PyVal

/-- Python truthiness `bool(value)` for the values of `PyVal`. -/
def pyTruthy : PyVal → Bool
  | .none => false
  | .bool b => b
  | .int n => n ≠ 0
  | .float q => q ≠ 0
  | .dec q => q ≠ 0
  | .str s => s ≠ ""
  | .list xs => !xs.isEmpty
  | .obj kvs => !kvs.isEmpty

/- ===================== 3. Rounding primitives ===================== -/

/-- `decimal.Decimal.to_integral_value(rounding=ROUND_HALF_UP)`: round to the
nearest integer, ties away from zero. -/
def roundHalfUp (q : ℚ) : ℤ :=
  if 0 ≤ q then ⌊q + 1/2⌋ else -⌊-q + 1/2⌋

/-- Python builtin `round(x)` on a float: round to the nearest integer, ties
to the even integer. -/
def roundHalfEven (q : ℚ) : ℤ :=
  if q - ⌊q⌋ < 1/2 then ⌊q⌋
  else if 1/2 < q - ⌊q⌋ then ⌊q⌋ + 1
  else if 2 ∣ ⌊q⌋ then ⌊q⌋ else ⌊q⌋ + 1

/-- `int(Decimal)`: truncation toward zero. -/
def ratTruncate (q : ℚ) : ℤ :=
  if 0 ≤ q then ⌊q⌋ else ⌈q⌉

/- ===================== 4. Decimal-string parsing ===================== -/

/-- Value of a digit list. -/
def digitsVal (cs : List Char) : ℕ :=
  cs.foldl (fun acc c => acc * 10 + (c.toNat - '0'.toNat)) 0

/-- Parse an (already stripped, comma-free) numeral of the shape accepted by
`decimal.Decimal` without exponent: optional sign, digits, optional single
decimal point, at least one digit overall.  Models the `Decimal(stripped)`
constructor call on the plain decimal strings the catalog carries; exotic
`Decimal` spellings (exponents, `NaN`, `Infinity`) are outside the model and
parse to `Option.none`, in which case the caller keeps the raw value just as
the Python code does on a `Decimal` exception. -/
def parseDecimal (s : String) : Option ℚ :=
  let cs := s.data
  let (sign, body) :=
    match cs with
    | '-' :: rest => ((-1 : ℚ), rest)
    | '+' :: rest => ((1 : ℚ), rest)
    | rest => ((1 : ℚ), rest)
  let intPart := body.takeWhile (fun c => c ≠ '.')
  let restPart := body.dropWhile (fun c => c ≠ '.')
  let fracPart := restPart.drop 1
  if body.isEmpty then Option.none
  else if !(intPart.all Char.isDigit) then Option.none
  else if restPart ≠ [] && restPart.head? ≠ some '.' then Option.none
  else if !(fracPart.all Char.isDigit) then Option.none
  else if fracPart.contains '.' then Option.none
  else if intPart.isEmpty && fracPart.isEmpty then Option.none
  else
    Option.some (sign * ((digitsVal intPart : ℚ) + (digitsVal fracPart : ℚ) / ((10 : ℚ) ^ fracPart.length)))

/- ===================== 5. formatters.py ===================== -/

/-- The built-in array-key hint set `_ARRAY_KEY_HINTS` of `formatters.py`. -/
def arrayKeyHints : List String :=
  ["products", "results", "variants", "tags", "images", "top_tags", "product_types", "options", "values"]

/-- `formatters._price_to_cents(value, key)`.  Python `bool` is checked
before `int` (a `bool` is an `int` in Python); `float` uses the builtin
`round` (ties to even); `Decimal` and decimal strings use `ROUND_HALF_UP`;
strings are stripped and commas removed before parsing, and a string that
fails to parse is returned unchanged, as is any other value. -/
def priceToCents (v : PyVal) (key : String) : PyVal :=
  let keyIsCents := containsSub (pyLower key) "cents"
  match v with
  | .bool b => .int (if b then 1 else 0)
  | .int n => .int n
  | .float q => if keyIsCents then .int (roundHalfEven q) else .int (roundHalfEven (q * 100))
  | .dec q => if keyIsCents then .int (roundHalfUp q) else .int (roundHalfUp (q * 100))
  | .str s =>
    let stripped := dropCommas (pyStrip s)
    if stripped = "" then .str s
    else
      match parseDecimal stripped with
      | Option.none => .str s
      | Option.some q =>
        if keyIsCents then .int (roundHalfUp q)
        else if stripped.data.contains '.' then .int (roundHalfUp (q * 100))
        else .int (ratTruncate q)
  | other => other

/-- `formatters._to_bool(value)`: booleans pass, numbers use truthiness,
strings match the fixed token sets, anything else falls back to `bool(value)`. -/
def toBoolPy : PyVal → Bool
  | .bool b => b
  | .int n => n ≠ 0
  | .float q => q ≠ 0
  | .dec q => q ≠ 0
  | .str s =>
    let normalized := pyLower (pyStrip s)
    if normalized ∈ ["true", "t", "1", "yes", "y", "available", "in stock", "in_stock"] then true
    else if normalized ∈ ["false", "f", "0", "no", "n", "unavailable", "out of stock", "out_of_stock"] then false
    else s ≠ ""
  | v => pyTruthy v

/-- Does the (present) key name select the price coercion in `_normalize`? -/
def isPriceKey : Option String → Bool
  | Option.none => false
  | Option.some k => containsSub (pyLower k) "price"

/-- Does the (present) key name select the boolean coercion in `_normalize`? -/
def isAvailKey : Option String → Bool
  | Option.none => false
  | Option.some k => containsSub (pyLower k) "available" || containsSub (pyLower k) "availability"

/-- The two key-driven coercions of `formatters._normalize`, applied in
source order: first `_price_to_cents` when the key mentions `price`, then
`_to_bool` when it mentions `available`/`availability`. -/
def keyTransform (v : PyVal) (key : Option String) : PyVal :=
  let v1 := if isPriceKey key then priceToCents v (key.getD "") else v
  if isAvailKey key then .bool (toBoolPy v1) else v1

mutual

/-- `formatters._normalize(value, key, array_keys)`.  `Option.none` plays the
role of the `_OMIT` sentinel.  The Python code applies the key coercions
before the structure dispatch; since `_price_to_cents` returns mappings and
lists unchanged while `_to_bool` collapses them to their truthiness, the
container cases below inline that behaviour and otherwise recurse exactly as
the source does.  A surviving `Decimal` leaf becomes a float. -/
def normalizePy (v : PyVal) (key : Option String) (ks : List String) : Option PyVal :=
  match v with
  | .none =>
    match key with
    | Option.some k => if k ∈ ks then Option.some (.list []) else Option.none
    | Option.none => Option.none
  | .obj kvs =>
    if isAvailKey key then Option.some (.bool (toBoolPy (.obj kvs)))
    else Option.some (.obj (normalizeEntries kvs ks))
  | .list xs =>
    if isAvailKey key then Option.some (.bool (toBoolPy (.list xs)))
    else Option.some (.list (normalizeItems xs ks))
  | leaf =>
    match keyTransform leaf key with
    | .dec q => Option.some (.float q)
    | out => Option.some out

/-- The dict branch of `_normalize`: each entry is normalized under its key;
an omitted entry whose key is in the array-key set resurfaces as `[]`. -/
def normalizeEntries (kvs : List (String × PyVal)) (ks : List String) : List (String × PyVal) :=
  match kvs with
  | [] => []
  | (k, cv) :: rest =>
    match normalizePy cv (Option.some k) ks with
    | Option.none =>
      if k ∈ ks then (k, .list []) :: normalizeEntries rest ks
      else normalizeEntries rest ks
    | Option.some nv => (k, nv) :: normalizeEntries rest ks

/-- The list branch of `_normalize`: items are normalized keyless and omitted
items are dropped. -/
def normalizeItems (xs : List PyVal) (ks : List String) : List PyVal :=
  match xs with
  | [] => []
  | x :: rest =>
    match normalizePy x Option.none ks with
    | Option.none => normalizeItems rest ks
    | Option.some nx => normalizeItems rest ks |>.cons nx

end

/-- `formatters.format_payload(payload, array_keys)`. -/
def formatPayload (payload : PyVal) (arrayKeys : List String) : PyVal :=
  let merged := arrayKeyHints ++ arrayKeys
  match normalizePy payload Option.none merged with
  | Option.none => .obj []
  | Option.some v => v

mutual

/-- `True` when no `None` value occurs anywhere in the value. -/
def noNone : PyVal → Bool
  | .none => false
  | .bool _ => true
  | .int _ => true
  | .float _ => true
  | .dec _ => true
  | .str _ => true
  | .list xs => noNoneItems xs
  | .obj kvs => noNoneEntries kvs

/-- `noNone` over a list of values. -/
def noNoneItems : List PyVal → Bool
  | [] => true
  | x :: rest => noNone x && noNoneItems rest

/-- `noNone` over dict entries. -/
def noNoneEntries : List (String × PyVal) → Bool
  | [] => true
  | (_, v) :: rest => noNone v && noNoneEntries rest

end

/-- First-occurrence association lookup, Python `dict[key]` as `Option`. -/
def lookupKey (kvs : List (String × PyVal)) (k : String) : Option PyVal :=
  match kvs with
  | [] => Option.none
  | (k', v) :: rest => if k' = k then Option.some v else lookupKey rest k

/- ===================== 6. JSON serialization and the v2 payload cap ===================== -/

/-- A JSON value as held by the v2 response payload at the moment
`_enforce_payload_cap` runs (the payload is built from ints, strings,
booleans, `None`, lists and dicts; no floats reach the cap). -/
inductive Json where
  | null : Json
  | bool (b : Bool) : Json
  | int (n : ℤ) : Json
  | str (s : String) : Json
  | arr (xs : List Json) : Json
  | obj (kvs : List (String × Json)) : Json

/-- UTF-8 byte count of one string character as emitted by
`json.dumps(..., ensure_ascii=False)`: quote and backslash escape to two
bytes, the short control escapes to two, other control characters to a
six-byte `\uXXXX` form, and everything else is raw UTF-8. -/
def escBytes (c : Char) : ℕ :=
  if c = '"' ∨ c = '\\' then 2
  else if c = (Char.ofNat 8) ∨ c = (Char.ofNat 9) ∨ c = (Char.ofNat 10) ∨ c = (Char.ofNat 12) ∨ c = (Char.ofNat 13) then 2
  else if c.toNat < 32 then 6
  else c.utf8Size

/-- Serialized byte count of a JSON string literal. -/
def strBytes (s : String) : ℕ :=
  2 + (s.data.map escBytes).sum

mutual

/-- `len(json.dumps(payload, ensure_ascii=False, separators=(",", ":")).encode("utf-8"))`
as computed by `registry._serialize_bytes`, expressed compositionally. -/
def serializedBytes : Json → ℕ
  | .null => 4
  | .bool b => if b then 4 else 5
  | .int n => (if n < 0 then 1 else 0) + (Nat.repr n.natAbs).length
  | .str s => strBytes s
  | .arr xs => 2 + arrBytes xs + (xs.length - 1)
  | .obj kvs => 2 + objBytes kvs + (kvs.length - 1)

/-- Byte count of the serialized elements of an array (commas excluded). -/
def arrBytes : List Json → ℕ
  | [] => 0
  | x :: rest => serializedBytes x + arrBytes rest

/-- Byte count of the serialized entries of an object (commas excluded). -/
def objBytes : List (String × Json) → ℕ
  | [] => 0
  | (k, v) :: rest => strBytes k + 1 + serializedBytes v + objBytes rest

end

/-- First-occurrence association lookup on a JSON dict. -/
def jsonGet (kvs : List (String × Json)) (k : String) : Option Json :=
  match kvs with
  | [] => Option.none
  | (k', v) :: rest => if k' = k then Option.some v else jsonGet rest k

/-- Python dict update `d[k] = v` / `{**d, k: v}`: replace the value at the
first (unique) occurrence of the key, appending when absent. -/
def jsonSet (kvs : List (String × Json)) (k : String) (v : Json) : List (String × Json) :=
  match kvs with
  | [] => [(k, v)]
  | (k', v') :: rest => if k' = k then (k, v) :: rest else (k', v') :: jsonSet rest k v

/-- Python truthiness for the JSON values of the cap module. -/
def jsonTruthy : Json → Bool
  | .null => false
  | .bool b => b
  | .int n => n ≠ 0
  | .str s => s ≠ ""
  | .arr xs => !xs.isEmpty
  | .obj kvs => !kvs.isEmpty

/-- `list(payload.get("results") or [])` for the dict payloads the v2 search
builds: the results value is a list, and any falsy value collapses to `[]`. -/
def resultsListOf (kvs : List (String × Json)) : List Json :=
  match jsonGet kvs "results" with
  | Option.some (.arr xs) => xs
  | _ => []

/-- The 12 KiB limit `_V2_PAYLOAD_LIMIT_BYTES`. -/
def v2PayloadLimitBytes : ℕ := 12 * 1024

/-- The `while results:` loop of `registry._enforce_payload_cap`: pop the last
result, rebuild the payload with `truncated: True`, and stop as soon as it
fits; falls through (`Option.none`) once the list is exhausted. -/
def popLoop (payload : List (String × Json)) (maxBytes : ℕ) (rs : List Json) : Option (List (String × Json)) :=
  match rs with
  | [] => Option.none
  | x :: rest =>
    let rs' := (x :: rest).dropLast
    let reduced := jsonSet (jsonSet payload "results" (.arr rs')) "truncated" (.bool true)
    if serializedBytes (.obj reduced) ≤ maxBytes then Option.some reduced
    else popLoop payload maxBytes rs'
termination_by rs.length
decreasing_by simp only [List.length_dropLast, List.length_cons]; omega

/-- `registry._enforce_payload_cap(payload, max_bytes)`. -/
def enforcePayloadCap (payload : List (String × Json)) (maxBytes : ℕ) : List (String × Json) :=
  if serializedBytes (.obj payload) ≤ maxBytes then
    jsonSet payload "truncated" (.bool (jsonTruthy ((jsonGet payload "truncated").getD (.bool false))))
  else
    match popLoop payload maxBytes (resultsListOf payload) with
    | Option.some reduced => reduced
    | Option.none => jsonSet (jsonSet payload "results" (.arr [])) "truncated" (.bool true)

/- ===================== 7. RRF fusion (registry._rrf_fuse) ===================== -/

/-- The constant `_RRF_K = 60`. -/
def rrfK : ℤ := 60

/-- One `scores[product_id] += 1.0 / (_RRF_K + rank)` update on the score
accumulator, which models the Python `defaultdict` as an association list in
insertion order with unique keys. -/
def addScore (acc : List (String × ℚ)) (pid : String) (inc : ℚ) : List (String × ℚ) :=
  match acc with
  | [] => [(pid, inc)]
  | (k, v) :: rest => if k = pid then (k, v + inc) :: rest else (k, v) :: addScore rest pid inc

/-- Python `scores[product_id]` on the association-list model of the score
accumulator (0 when absent, as for a fresh `defaultdict(float)` entry). -/
def scoreOf (acc : List (String × ℚ)) (pid : String) : ℚ :=
  match acc with
  | [] => 0
  | (k, v) :: rest => if k = pid then v else scoreOf rest pid

/-- The accumulation loops of `_rrf_fuse`: every `(product_id, rank)` pair of
every ranking contributes `1/(60 + rank)`. -/
def rrfScores (rankings : List (List (String × ℤ))) : List (String × ℚ) :=
  rankings.foldl
    (fun acc ranking => ranking.foldl (fun acc2 p => addScore acc2 p.1 (1 / ((rrfK : ℚ) + (p.2 : ℚ)))) acc)
    []

/-- The sort key `(-score, product_id)` of `_rrf_fuse` as a relation: higher
score first, ties by ascending product id (Python code-point order). -/
def rrfLe (a b : String × ℚ) : Prop :=
  b.2 < a.2 ∨ (a.2 = b.2 ∧ strLeB a.1 b.1 = true)

instance : DecidableRel rrfLe := fun a b => by
  unfold rrfLe; infer_instance

/-- `registry._rrf_fuse(rankings, limit)`: accumulate reciprocal-rank scores,
sort by `(-score, product_id)` and keep the first `limit` entries. -/
def rrfFuse (rankings : List (List (String × ℤ))) (limit : ℕ) : List (String × ℚ) :=
  (List.insertionSort rrfLe (rrfScores rankings)).take limit

/- ===================== 8. v2 exclusion accounting ===================== -/

/-- The candidate-level data `_search_products_v2` reads before the exclusion
branches: the summary price bounds and availability of a hydrated product. -/
structure CandidateInfo where
  priceMin : Option ℤ
  priceMax : Option ℤ
  available : Bool

/-- The `excluded_counts` dict of `_search_products_v2`. -/
structure ExcludedCounts where
  overBudget : ℕ
  unavailable : ℕ
  lowRelevance : ℕ
deriving DecidableEq

/-- The exclusion loop of `_search_products_v2` (registry.py lines
1299-1334) restricted to its counting effect.  The loop walks the fused
list in order; a product that fails to hydrate is skipped; then the
`unavailable`, `over_budget` and `low_relevance` branches run in source
order, where the relevance of a fused candidate is its fused score (the
`score_by_id` lookup cannot miss because `product_ids` is built from the
same fused pairs). -/
def v2ExcludedCounts (fused : List (String × ℚ)) (hydrated : String → Option CandidateInfo)
    (availableOnly : Bool) (budgetMaxCents budgetMinCents : Option ℤ) : ExcludedCounts :=
  fused.foldl
    (fun acc p =>
      match hydrated p.1 with
      | Option.none => acc
      | Option.some info =>
        if availableOnly && !info.available then { acc with unavailable := acc.unavailable + 1 }
        else if (match budgetMaxCents, info.priceMin with
                 | Option.some bm, Option.some pm => decide (pm > bm)
                 | _, _ => false) then { acc with overBudget := acc.overBudget + 1 }
        else if (match budgetMinCents, info.priceMax with
                 | Option.some bm, Option.some pM => decide (pM < bm)
                 | _, _ => false) then { acc with overBudget := acc.overBudget + 1 }
        else if p.2 ≤ 0 then { acc with lowRelevance := acc.lowRelevance + 1 }
        else acc)
    ⟨0, 0, 0⟩

/-- The `results: []` early return of `_search_products_v2` for a blank
query (registry.py lines 1190-1204); this payload is returned raw, without
passing through `format_payload`. -/
def searchV2EmptyQueryPayload (availableOnly : Bool) (budgetMaxCents budgetMinCents : Option ℤ)
    (skinTone : Option String) : PyVal :=
  .obj
    [("store_slug", .str ""), ("query", .str ""), ("summary", .str "No query provided."),
     ("applied_filters", .obj
       [("available_only", .bool availableOnly),
        ("budget_max_cents", match budgetMaxCents with | Option.some n => .int n | Option.none => .none),
        ("budget_min_cents", match budgetMinCents with | Option.some n => .int n | Option.none => .none),
        ("skin_tone", match skinTone with | Option.some s => .str s | Option.none => .none)]),
     ("excluded_counts", .obj [("over_budget", .int 0), ("unavailable", .int 0), ("low_relevance", .int 0)]),
     ("results", .list []), ("truncated", .bool false)]

/- ===================== 9. Store rows and the slug resolver ===================== -/

/-- A row of the `stores` table. -/
structure StoreRow where
  slug : String
  storeName : String
  url : String
  platform : String
  productCount : ℤ
  indexedAt : Option ℤ

/-- A row of the `products` table, restricted to the columns the slug
resolver probes read. -/
structure ProductRow where
  storeSlug : String
  title : String
  handle : String
  productType : Option String
  tags : List String
  isCatalogProduct : Option Bool

/-- The catalog database visible to the slug resolver.  `tsMatch` is the
opaque semantics of `search_tsv @@ websearch_to_tsquery('simple', hint)`. -/
structure CatalogDB where
  stores : List StoreRow
  products : List ProductRow
  tsMatch : String → ProductRow → Bool

/-- The SQL predicate `_PRODUCT_ONLY_SQL`: `coalesce(is_catalog_product, true) = true`. -/
def productOnly (p : ProductRow) : Bool :=
  p.isCatalogProduct.getD true

/-- `x ILIKE '%' || hint || '%'`: case-insensitive substring containment. -/
def ilike (text hint : String) : Bool :=
  containsSub (pyLower text) (pyLower hint)

/-- The fuzzy probe's row predicate: title, handle, coalesced product type or
any tag matches the hint case-insensitively. -/
def fuzzyMatch (hint : String) (p : ProductRow) : Bool :=
  ilike p.title hint || ilike p.handle hint || ilike (p.productType.getD "") hint ||
    p.tags.any (fun t => ilike t hint)

/-- `group by store_slug order by count(*) desc, store_slug asc limit 1` over
a filtered product list: the winning slug, if any row matched. -/
def topSlugByMatches (ps : List ProductRow) : Option String :=
  let slugs := (ps.map (fun p => p.storeSlug)).dedup
  let pairs := slugs.map (fun s => (s, (ps.filter (fun p => p.storeSlug = s)).length))
  let sorted := List.insertionSort
    (fun a b : String × ℕ => b.2 < a.2 ∨ (a.2 = b.2 ∧ strLeB a.1 b.1 = true)) pairs
  (sorted.head?).map (fun pr => pr.1)

instance : DecidableRel (fun a b : String × ℕ => b.2 < a.2 ∨ (a.2 = b.2 ∧ strLeB a.1 b.1 = true)) :=
  fun a b => by simp only []; infer_instance

/-- `order by product_count desc, indexed_at desc nulls last, slug asc` on
store rows. -/
def preferredStoreOrder (a b : StoreRow) : Prop :=
  b.productCount < a.productCount ∨
    (a.productCount = b.productCount ∧
      (indexedDescNullsLast a.indexedAt b.indexedAt ∨
        (a.indexedAt = b.indexedAt ∧ strLeB a.slug b.slug = true)))
where
  /-- `indexed_at desc nulls last`, strictly. -/
  indexedDescNullsLast : Option ℤ → Option ℤ → Prop
    | Option.some x, Option.some y => y < x
    | Option.some _, Option.none => True
    | Option.none, _ => False

instance : DecidableRel preferredStoreOrder := fun a b => by
  unfold preferredStoreOrder
  have : ∀ x y, Decidable (preferredStoreOrder.indexedDescNullsLast x y) := fun x y => by
    unfold preferredStoreOrder.indexedDescNullsLast
    match x, y with
    | Option.some x, Option.some y => infer_instance
    | Option.some _, Option.none => exact .isTrue trivial
    | Option.none, _ => exact .isFalse id
  exact @instDecidableOr _ _ _ (@instDecidableAnd _ _ _ (@instDecidableOr _ _ (this _ _) _))

/-- `order by indexed_at desc nulls last, slug asc` on store rows. -/
def fallbackStoreOrder (a b : StoreRow) : Prop :=
  preferredStoreOrder.indexedDescNullsLast a.indexedAt b.indexedAt ∨
    (a.indexedAt = b.indexedAt ∧ strLeB a.slug b.slug = true)

instance : DecidableRel fallbackStoreOrder := fun a b => by
  unfold fallbackStoreOrder
  have : ∀ x y, Decidable (preferredStoreOrder.indexedDescNullsLast x y) := fun x y => by
    unfold preferredStoreOrder.indexedDescNullsLast
    match x, y with
    | Option.some x, Option.some y => infer_instance
    | Option.some _, Option.none => exact .isTrue trivial
    | Option.none, _ => exact .isFalse id
  exact @instDecidableOr _ _ (this _ _) _

/-- The error raised when every tier of `_auto_select_store_slug` is
exhausted. -/
def noIndexedStoresError : String :=
  "No indexed stores available. Index a store first or provide slug explicitly."

/-- `registry._auto_select_store_slug(pool, query_hint)`: the four-tier DB
cascade.  Each probe row is accepted only when its slug is truthy
(non-empty), exactly as the `if row and row["slug"]` guards do. -/
def autoSelectStoreSlug (db : CatalogDB) (queryHint : Option String) : Except String String :=
  let hint := pyStrip (queryHint.getD "")
  let ftsSlug : Option String :=
    if hint ≠ "" then topSlugByMatches (db.products.filter (fun p => db.tsMatch hint p && productOnly p))
    else Option.none
  match ftsSlug with
  | Option.some s =>
    if s ≠ "" then .ok s else pastFts db hint
  | Option.none => pastFts db hint
where
  /-- Tiers 2-4 of the cascade. -/
  pastFts (db : CatalogDB) (hint : String) : Except String String :=
    let fuzzySlug : Option String :=
      if hint ≠ "" then topSlugByMatches (db.products.filter (fun p => fuzzyMatch hint p && productOnly p))
      else Option.none
    match fuzzySlug with
    | Option.some s => if s ≠ "" then .ok s else pastFuzzy db
    | Option.none => pastFuzzy db
  /-- Tiers 3-4 of the cascade. -/
  pastFuzzy (db : CatalogDB) : Except String String :=
    let preferred := (List.insertionSort preferredStoreOrder (db.stores.filter (fun s => 0 < s.productCount))).head?
    match preferred with
    | Option.some row =>
      if row.slug ≠ "" then .ok row.slug else pastPreferred db
    | Option.none => pastPreferred db
  /-- Tier 4 of the cascade, then the raise. -/
  pastPreferred (db : CatalogDB) : Except String String :=
    match (List.insertionSort fallbackStoreOrder db.stores).head? with
    | Option.some row => if row.slug ≠ "" then .ok row.slug else .error noIndexedStoresError
    | Option.none => .error noIndexedStoresError

/-- `registry._resolve_store_slug(pool, slug, query_hint)`.  The
request-scoped context value `get_store_slug()` is the explicit `scoped`
argument of the model. -/
def resolveStoreSlug (db : CatalogDB) (slug : Option String) (scope : Option String)
    (queryHint : Option String) : Except String String :=
  let explicit := pyStrip (slug.getD "")
  if explicit ≠ "" then .ok explicit
  else
    let scopedSlug := pyStrip (scope.getD "")
    if scopedSlug ≠ "" then .ok scopedSlug
    else autoSelectStoreSlug db queryHint

/- ===================== 10. Basket state ===================== -/

/-- A row of the `baskets` table. -/
structure BasketRow where
  basketId : String
  storeSlug : String
  status : String
  checkoutUrl : Option String
  checkedOutAt : Option ℕ
  createdAt : Option ℕ
  updatedAt : Option ℕ

/-- A row of the `basket_items` table. -/
structure BasketItemRow where
  basketId : String
  variantId : String
  productHandle : String
  productTitle : String
  productUrl : String
  options : List (String × String)
  unitPrice : ℤ
  quantity : ℤ
  available : Bool
  addedAt : ℕ
  updatedAt : ℕ

/-- The database state the basket tools read and write.  `now` is the value
the SQL `now()` yields for writes performed during the current call;
timestamps are modelled as naturals and their `isoformat()` rendering as
decimal rendering (both injective, which is all the payloads rely on). -/
structure ShopState where
  stores : List StoreRow
  baskets : List BasketRow
  items : List BasketItemRow
  now : ℕ

/-- `_BASKET_MAX_QUANTITY = 99`. -/
def basketMaxQuantity : ℤ := 99

/-- `registry._bounded_quantity(value)` on an integer input: clamp into
`[1, 99]` (the `int()` conversion cannot fail on the integer-valued model). -/
def boundedQuantity (q : ℤ) : ℤ :=
  max 1 (min basketMaxQuantity q)

/-- `registry._line_total(unit_price, quantity)`. -/
def lineTotal (unitPrice quantity : ℤ) : ℤ :=
  max 0 unitPrice * max 0 quantity

/-- Timestamp rendering (models `datetime.isoformat()`). -/
def isoStr (t : ℕ) : String := toString t

/-- `select ... from baskets where basket_id = $1 limit 1`. -/
def findBasket (st : ShopState) (basketId : String) : Option BasketRow :=
  st.baskets.find? (fun b => b.basketId = basketId)

/-- `select ... from stores where slug = $1 limit 1`. -/
def findStore (st : ShopState) (slug : String) : Option StoreRow :=
  st.stores.find? (fun s => s.slug = slug)

/-- `order by added_at asc, variant_id asc` on basket item rows. -/
def itemOrder (a b : BasketItemRow) : Prop :=
  a.addedAt < b.addedAt ∨ (a.addedAt = b.addedAt ∧ strLeB a.variantId b.variantId = true)

instance : DecidableRel itemOrder := fun a b => by
  unfold itemOrder; infer_instance

/-- The item rows of a basket in payload order (`_fetch_basket`'s item query). -/
def basketItemsSorted (st : ShopState) (basketId : String) : List BasketItemRow :=
  List.insertionSort itemOrder (st.items.filter (fun it => it.basketId = basketId))

/-- The quantity field `_fetch_basket` computes for one line:
`max(1, int(item_row.get("quantity") or 1))`. -/
def fetchedQuantity (it : BasketItemRow) : ℤ :=
  max 1 (if it.quantity = 0 then 1 else it.quantity)

/-- The per-line payload `_fetch_basket` builds. -/
def itemPayload (it : BasketItemRow) : PyVal :=
  .obj
    [("variant_id", .str it.variantId), ("handle", .str it.productHandle),
     ("title", .str it.productTitle), ("url", .str it.productUrl),
     ("product_url", .str it.productUrl), ("link", .str it.productUrl),
     ("options", .obj (it.options.map (fun kv => (kv.1, PyVal.str kv.2)))),
     ("unit_price", .int it.unitPrice), ("quantity", .int (fetchedQuantity it)),
     ("line_total", .int (lineTotal it.unitPrice (fetchedQuantity it))),
     ("available", .bool it.available),
     ("added_at", .str (isoStr it.addedAt)), ("updated_at", .str (isoStr it.updatedAt))]

/-- `registry._fetch_basket(pool, basket_id, expected_store_slug)`: the basket
header joined with its ordered lines and the accumulated totals.  The
`unit_price` column is an integer in the schema, so the
`_to_cents(..., assume_cents_for_int=True) or 0` read is the identity on it
(with `0` staying `0`). -/
def fetchBasketPayload (st : ShopState) (basketId : String) (expectedStoreSlug : Option String) : Option PyVal :=
  match findBasket st basketId with
  | Option.none => Option.none
  | Option.some row =>
    let storeSlug := pyStrip row.storeSlug
    if (match expectedStoreSlug with
        | Option.some expected => storeSlug ≠ "" && storeSlug ≠ expected
        | Option.none => false) then Option.none
    else
      let rows := basketItemsSorted st basketId
      let subtotal := (rows.map (fun it => lineTotal it.unitPrice (fetchedQuantity it))).sum
      let totalQuantity := (rows.map fetchedQuantity).sum
      Option.some (.obj
        [("basket_id", .str (if row.basketId = "" then basketId else row.basketId)),
         ("store_slug", .str storeSlug),
         ("status", .str (if row.status = "" then "active" else row.status)),
         ("checkout_url", .str (pyStrip (row.checkoutUrl.getD ""))),
         ("checked_out_at", match row.checkedOutAt with
                            | Option.some t => .str (isoStr t)
                            | Option.none => .none),
         ("created_at", match row.createdAt with
                        | Option.some t => .str (isoStr t)
                        | Option.none => .none),
         ("updated_at", match row.updatedAt with
                        | Option.some t => .str (isoStr t)
                        | Option.none => .none),
         ("currency", .str "USD"),
         ("item_count", .int rows.length),
         ("quantity_total", .int totalQuantity),
         ("subtotal", .int subtotal),
         ("items", .list (rows.map itemPayload))])

/-- `registry._touch_basket(pool, basket_id)`: `update baskets set updated_at = now()`. -/
def touchBasket (st : ShopState) (basketId : String) : ShopState :=
  { st with baskets := st.baskets.map (fun b =>
      if b.basketId = basketId then { b with updatedAt := Option.some st.now } else b) }

/-- `registry._set_basket_checkout(pool, basket_id, checkout_url, mark_checked_out)`. -/
def setBasketCheckout (st : ShopState) (basketId : String) (checkoutUrl : String)
    (markCheckedOut : Bool) : ShopState :=
  { st with baskets := st.baskets.map (fun b =>
      if b.basketId = basketId then
        if markCheckedOut then
          { b with status := "checked_out", checkoutUrl := Option.some checkoutUrl,
                   checkedOutAt := Option.some st.now, updatedAt := Option.some st.now }
        else { b with checkoutUrl := Option.some checkoutUrl, updatedAt := Option.some st.now }
      else b) }

/-- `registry._resolve_basket_scope(pool, basket_id, slug, allow_checked_out)`.
A caller-supplied non-blank `slug` resolves through `_resolve_store_slug`,
which for a non-blank explicit argument is its stripped value without any DB
access.  Error strings are abbreviated stand-ins for the Python messages;
only the error codes that wrap them are observable in the tool results. -/
def resolveBasketScope (st : ShopState) (basketId : String) (slug : Option String)
    (allowCheckedOut : Bool) : Except String (String × String) :=
  let normalized := pyStrip basketId
  if normalized = "" then .error "basket_id is required"
  else
    match findBasket st normalized with
    | Option.none => .error "unknown basket_id"
    | Option.some header =>
      let basketStoreSlug := pyStrip header.storeSlug
      if basketStoreSlug = "" then .error "basket has no store association"
      else
        let slugText := pyStrip (slug.getD "")
        if slugText ≠ "" && slugText ≠ basketStoreSlug then .error "basket belongs to another store"
        else
          let status := pyLower (pyStrip (if header.status = "" then "active" else header.status))
          if status ≠ "active" then
            if allowCheckedOut && status = "checked_out" then .ok (normalized, basketStoreSlug)
            else .error "basket is not active"
          else .ok (normalized, basketStoreSlug)

/-- The tail `_update_basket_item` shares between its delete and set paths:
touch the basket, re-fetch it, and wrap it. -/
def finishBasketUpdate (st : ShopState) (basketId storeSlug : String) : Except String (PyVal × ShopState) :=
  let st2 := touchBasket st basketId
  match fetchBasketPayload st2 basketId (Option.some storeSlug) with
  | Option.none => .error "failed to load basket after update"
  | Option.some basketPayload =>
    .ok (formatPayload (.obj
      [("basket_id", .str basketId), ("store_slug", .str storeSlug), ("basket", basketPayload)])
      ["items"], st2)

/-- `registry._update_basket_item(basket_id, variant_id, quantity, slug)`.
Error dicts are returned as values (`Except.ok`); the only `Except.error` is
the `RuntimeError` raised when the basket vanishes between write and
re-read. -/
def updateBasketItem (st : ShopState) (basketId variantId : String) (quantity : ℤ)
    (slug : Option String) : Except String (PyVal × ShopState) :=
  let variantIdText := pyStrip variantId
  if variantIdText = "" then
    .ok (.obj [("error", .str "variant_id is required"), ("code", .str "invalid_variant_id")], st)
  else
    match resolveBasketScope st basketId slug false with
    | .error e => .ok (.obj [("error", .str e), ("code", .str "basket_scope_error")], st)
    | .ok (resolvedBasketId, storeSlug) =>
      if quantity ≤ 0 then
        let st1 := { st with items := st.items.filter (fun it =>
          ¬(it.basketId = resolvedBasketId ∧ it.variantId = variantIdText)) }
        finishBasketUpdate st1 resolvedBasketId storeSlug
      else
        let bounded := boundedQuantity quantity
        if st.items.any (fun it => it.basketId = resolvedBasketId && it.variantId = variantIdText) then
          let st1 := { st with items := st.items.map (fun it =>
            if it.basketId = resolvedBasketId ∧ it.variantId = variantIdText then
              { it with quantity := bounded, updatedAt := st.now }
            else it) }
          finishBasketUpdate st1 resolvedBasketId storeSlug
        else
          .ok (.obj
            [("error", .str "variant_id not found in basket"), ("code", .str "basket_line_not_found"),
             ("basket_id", .str resolvedBasketId), ("store_slug", .str storeSlug)], st)

/-- `registry._remove_from_basket(basket_id, variant_id, slug)`: delegates to
`_update_basket_item` with `quantity = 0`. -/
def removeFromBasket (st : ShopState) (basketId variantId : String) (slug : Option String) :
    Except String (PyVal × ShopState) :=
  updateBasketItem st basketId variantId 0 slug

/-- The `insert into basket_items ... on conflict (basket_id, variant_id) do
update` statement of `registry._add_to_basket` (lines 1813-1848): a fresh
line is inserted as given; on conflict the snapshot columns are refreshed
and the stored quantity becomes `basket_items.quantity + excluded.quantity`
with no clamp. -/
def upsertBasketItem (items : List BasketItemRow) (row : BasketItemRow) : List BasketItemRow :=
  if items.any (fun it => it.basketId = row.basketId && it.variantId = row.variantId) then
    items.map (fun it =>
      if it.basketId = row.basketId ∧ it.variantId = row.variantId then
        { it with productHandle := row.productHandle, productTitle := row.productTitle,
                  productUrl := row.productUrl, options := row.options,
                  unitPrice := row.unitPrice, quantity := it.quantity + row.quantity,
                  available := row.available, updatedAt := row.updatedAt }
      else it)
  else items ++ [row]

/- ===================== 11. Checkout permalinks ===================== -/

/-- Python `str.rstrip("/")`: drop every trailing slash. -/
def rstripSlashes (s : String) : String :=
  String.mk (s.data.reverse.dropWhile (fun c => c = '/')).reverse

/-- The characters `urllib.parse.quote` never escapes: ASCII letters,
digits, `_`, `.`, `-`, `~`. -/
def isUnreservedChar (c : Char) : Bool :=
  ('A'.toNat ≤ c.toNat && c.toNat ≤ 'Z'.toNat) || ('a'.toNat ≤ c.toNat && c.toNat ≤ 'z'.toNat) ||
    ('0'.toNat ≤ c.toNat && c.toNat ≤ '9'.toNat) || c = '_' || c = '.' || c = '-' || c = '~'

/-- UTF-8 encoding of one character as its byte values. -/
def utf8Bytes (c : Char) : List ℕ :=
  let n := c.toNat
  if n < 0x80 then [n]
  else if n < 0x800 then [0xc0 + n / 0x40, 0x80 + n % 0x40]
  else if n < 0x10000 then [0xe0 + n / 0x1000, 0x80 + (n / 0x40) % 0x40, 0x80 + n % 0x40]
  else [0xf0 + n / 0x40000, 0x80 + (n / 0x1000) % 0x40, 0x80 + (n / 0x40) % 0x40, 0x80 + n % 0x40]

/-- Uppercase hexadecimal digit, as `quote` emits. -/
def hexDigitU (n : ℕ) : Char :=
  if n < 10 then Char.ofNat ('0'.toNat + n) else Char.ofNat ('A'.toNat + n - 10)

/-- A `%XX` escape for one byte. -/
def percentTriple (b : ℕ) : List Char :=
  ['%', hexDigitU (b / 16), hexDigitU (b % 16)]

/-- `urllib.parse.quote(c, safe='')` for one character: unreserved characters
stay, everything else is percent-encoded byte by byte of its UTF-8 form. -/
def quoteChar (c : Char) : List Char :=
  if isUnreservedChar c then [c] else (utf8Bytes c).flatMap percentTriple

/-- `urllib.parse.quote(s, safe='')`. -/
def quotePy (s : String) : String :=
  String.mk (s.data.flatMap quoteChar)

/-- Value of one hexadecimal digit (upper or lower case). -/
def hexVal (c : Char) : Option ℕ :=
  if '0' ≤ c ∧ c ≤ '9' then Option.some (c.toNat - '0'.toNat)
  else if 'A' ≤ c ∧ c ≤ 'F' then Option.some (c.toNat - 'A'.toNat + 10)
  else if 'a' ≤ c ∧ c ≤ 'f' then Option.some (c.toNat - 'a'.toNat + 10)
  else Option.none

/-- The byte stream a percent-encoded ASCII string denotes: `%XX` groups
become bytes, other ASCII characters stand for themselves (the shape
`urllib.parse.unquote` consumes). -/
def unquoteBytes : List Char → Option (List ℕ)
  | [] => Option.some []
  | '%' :: h1 :: h2 :: rest =>
    (match hexVal h1, hexVal h2 with
     | Option.some a, Option.some b => (unquoteBytes rest).map (fun bs => (a * 16 + b) :: bs)
     | _, _ => Option.none)
  | c :: rest =>
    if c.toNat < 0x80 then (unquoteBytes rest).map (fun bs => c.toNat :: bs) else Option.none

/-- One step of UTF-8 decoding: consume one encoded scalar value from the
front of a byte stream, returning the character and the remaining bytes. -/
def utf8Step : List ℕ → Option (Char × List ℕ)
  | [] => Option.none
  | b0 :: rest =>
    if b0 < 0x80 then Option.some (Char.ofNat b0, rest)
    else if 0xc0 ≤ b0 ∧ b0 < 0xe0 then
      match rest with
      | b1 :: rest1 =>
        if 0x80 ≤ b1 ∧ b1 < 0xc0 then
          Option.some (Char.ofNat ((b0 - 0xc0) * 0x40 + (b1 - 0x80)), rest1)
        else Option.none
      | [] => Option.none
    else if 0xe0 ≤ b0 ∧ b0 < 0xf0 then
      match rest with
      | b1 :: b2 :: rest1 =>
        if (0x80 ≤ b1 ∧ b1 < 0xc0) ∧ (0x80 ≤ b2 ∧ b2 < 0xc0) then
          Option.some (Char.ofNat ((b0 - 0xe0) * 0x1000 + (b1 - 0x80) * 0x40 + (b2 - 0x80)), rest1)
        else Option.none
      | _ => Option.none
    else if 0xf0 ≤ b0 ∧ b0 < 0xf8 then
      match rest with
      | b1 :: b2 :: b3 :: rest1 =>
        if (0x80 ≤ b1 ∧ b1 < 0xc0) ∧ (0x80 ≤ b2 ∧ b2 < 0xc0) ∧ (0x80 ≤ b3 ∧ b3 < 0xc0) then
          Option.some
            (Char.ofNat ((b0 - 0xf0) * 0x40000 + (b1 - 0x80) * 0x1000 + (b2 - 0x80) * 0x40 + (b3 - 0x80)),
             rest1)
        else Option.none
      | _ => Option.none
    else Option.none

/-- Fuel-indexed UTF-8 decoding loop: each step consumes at least one byte, so
fuel equal to the stream length always suffices. -/
def utf8Run : ℕ → List ℕ → Option (List Char)
  | _, [] => Option.some []
  | 0, _ :: _ => Option.none
  | fuel + 1, b0 :: rest =>
    match utf8Step (b0 :: rest) with
    | Option.some (c, rest2) => (utf8Run fuel rest2).map (fun cs => c :: cs)
    | Option.none => Option.none

/-- UTF-8 decoding of a byte stream. -/
def utf8Decode (bs : List ℕ) : Option (List Char) :=
  utf8Run bs.length bs

/-- Percent-decoding of a percent-encoded string back to a string
(`urllib.parse.unquote` on the ASCII output `quote` produces). -/
def percentDecode (s : String) : Option String :=
  (unquoteBytes s.data).bind (fun bs => (utf8Decode bs).map String.mk)

/-- `registry._shopify_checkout_url(store_url, items)` on the basket lines,
each projected to its `variant_id` string and `quantity` integer (the two
fields the function reads from every line dict). -/
def shopifyCheckoutUrl (storeUrl : String) (items : List (String × ℤ)) : String :=
  let base := rstripSlashes (pyStrip storeUrl)
  if base = "" then ""
  else
    let encodedLines := (items.filter (fun it => pyStrip it.1 ≠ "")).map
      (fun it => quotePy (pyStrip it.1) ++ ":" ++ toString (boundedQuantity it.2))
    if encodedLines.isEmpty then ""
    else base ++ "/cart/" ++ String.intercalate "," encodedLines

/-- The platform normalization of `registry._store_meta_for_slug`:
`str(row.get("platform") or "unknown").strip().lower() or "unknown"`. -/
def storeMetaPlatform (store : StoreRow) : String :=
  let raw := if store.platform = "" then "unknown" else store.platform
  let p := pyLower (pyStrip raw)
  if p = "" then "unknown" else p

/-- `registry._create_checkout_intent(basket_id, slug, mark_checked_out)`.
The basket lines are read through `_fetch_basket`; the per-line fields the
function consumes (`variant_id`, `url`, `quantity`) equal the corresponding
row projections of `basketItemsSorted`, which the model reads directly.
Error payloads are `Except.ok` values; `Except.error` models the
`RuntimeError` raises. -/
def createCheckoutIntent (st : ShopState) (basketId : String) (slug : Option String)
    (markCheckedOut : Bool) : Except String (PyVal × ShopState) :=
  match resolveBasketScope st basketId slug true with
  | .error e => .ok (.obj [("error", .str e), ("code", .str "basket_scope_error")], st)
  | .ok (resolvedBasketId, storeSlug) =>
    match fetchBasketPayload st resolvedBasketId (Option.some storeSlug) with
    | Option.none => .error "basket not found"
    | Option.some basketPayload =>
      let rows := basketItemsSorted st resolvedBasketId
      if rows.isEmpty then
        .ok (.obj
          [("error", .str "Cannot create checkout link for an empty basket"),
           ("code", .str "empty_basket"), ("basket_id", .str resolvedBasketId),
           ("store_slug", .str storeSlug)], st)
      else
        match findStore st storeSlug with
        | Option.none => .error "unknown store slug"
        | Option.some store =>
          let platform := storeMetaPlatform store
          let storeUrl := pyStrip store.url
          let invalidLines := rows.filter (fun it => pyStrip it.variantId = "")
          if platform ≠ "shopify" then
            .ok (formatPayload (.obj
              [("supported", .bool false), ("reason", .str "unsupported_platform"),
               ("platform", .str platform), ("store_slug", .str storeSlug),
               ("basket_id", .str resolvedBasketId), ("manual_checkout", .bool true),
               ("message", .str "Prefilled checkout links are only supported for Shopify stores."),
               ("basket", basketPayload),
               ("product_urls", .list (((rows.map (fun it => it.productUrl)).filter (fun u => u ≠ "")).map PyVal.str))])
              ["items", "product_urls"], st)
          else if !invalidLines.isEmpty then
            .ok (formatPayload (.obj
              [("supported", .bool false), ("reason", .str "missing_variant_ids"),
               ("platform", .str platform), ("store_slug", .str storeSlug),
               ("basket_id", .str resolvedBasketId), ("manual_checkout", .bool true),
               ("message", .str "One or more basket lines are missing variant_id values required by Shopify checkout links."),
               ("basket", basketPayload)])
              ["items"], st)
          else
            let checkoutUrl := shopifyCheckoutUrl storeUrl
              (rows.map (fun it => (it.variantId, fetchedQuantity it)))
            if checkoutUrl = "" then
              .ok (.obj
                [("error", .str "Unable to build checkout URL"),
                 ("code", .str "checkout_url_build_failed"),
                 ("basket_id", .str resolvedBasketId), ("store_slug", .str storeSlug)], st)
            else
              let st1 := setBasketCheckout st resolvedBasketId checkoutUrl markCheckedOut
              match fetchBasketPayload st1 resolvedBasketId (Option.some storeSlug) with
              | Option.none => .error "failed to load basket after checkout intent"
              | Option.some refreshed =>
                .ok (formatPayload (.obj
                  [("supported", .bool true), ("platform", .str platform),
                   ("manual_checkout", .bool true), ("store_slug", .str storeSlug),
                   ("basket_id", .str resolvedBasketId), ("checkout_url", .str checkoutUrl),
                   ("url", .str checkoutUrl), ("link", .str checkoutUrl),
                   ("message", .str "Open the checkout URL to review the cart and complete checkout manually."),
                   ("basket", refreshed)])
                  ["items"], st1)

/- ===================== 12. Concrete witness data ===================== -/

/-- A concrete non-Shopify store row used by witnesses. -/
def exampleStore : StoreRow :=
  ⟨"acme", "Acme", "https://acme.example", "woocommerce", 5, Option.some 10⟩

/-- A concrete active basket row used by witnesses. -/
def exampleBasket : BasketRow :=
  ⟨"b1", "acme", "active", Option.none, Option.none, Option.some 1, Option.some 1⟩

/-- A concrete basket line used by witnesses. -/
def exampleItem : BasketItemRow :=
  ⟨"b1", "v1", "red-tee", "Red Tee", "https://acme.example/products/red-tee", [],
   1999, 2, true, 1, 1⟩

/-- A concrete one-store, one-basket, one-line state used by witnesses. -/
def exampleState : ShopState :=
  ⟨[exampleStore], [exampleBasket], [exampleItem], 5⟩

/- ===================== Theorems ===================== -/

/-- C1: the spec claims every persisted basket line quantity lies in
`[1, 99]` with the upsert accumulation clamped to 99.  The
`on conflict ... do update` statement of `_add_to_basket` accumulates
without a clamp: adding quantity 99 (already `_bounded_quantity`-clamped)
onto an existing line holding 99 persists quantity 198, and `_fetch_basket`
returns 198 for that line (`max(1, ...)` has no upper bound). -/
theorem addToBasket_upsert_overflow :
    (upsertBasketItem
        [⟨"basket_b1", "v1", "red-tee", "Red Tee", "https://acme.example/products/red-tee", [],
          1999, 99, true, 0, 0⟩]
        ⟨"basket_b1", "v1", "red-tee", "Red Tee", "https://acme.example/products/red-tee", [],
          1999, boundedQuantity 99, true, 1, 1⟩).map (fun it => it.quantity) = [198] ∧
    (upsertBasketItem
        [⟨"basket_b1", "v1", "red-tee", "Red Tee", "https://acme.example/products/red-tee", [],
          1999, 99, true, 0, 0⟩]
        ⟨"basket_b1", "v1", "red-tee", "Red Tee", "https://acme.example/products/red-tee", [],
          1999, boundedQuantity 99, true, 1, 1⟩).map fetchedQuantity = [198] ∧
    basketMaxQuantity < 198 := by
  refine ⟨?_, ?_, by decide⟩ <;> decide

/-- C6: the slug-resolution cascade.  A non-blank explicit slug is returned
(trimmed) without consulting scope or database; with a blank explicit slug a
non-blank request-scoped slug wins over every probe; and when the database
holds no stores (hence no products), every tier is exhausted and the
no-indexed-stores error is raised. -/
theorem resolveStoreSlug_cascade (db : CatalogDB) (slug scope hint : Option String) :
    (∀ s, slug = Option.some s → pyStrip s ≠ "" →
      resolveStoreSlug db slug scope hint = .ok (pyStrip s)) ∧
    (pyStrip (slug.getD "") = "" → ∀ sc, scope = Option.some sc → pyStrip sc ≠ "" →
      resolveStoreSlug db slug scope hint = .ok (pyStrip sc)) ∧
    (db.stores = [] → db.products = [] → pyStrip (slug.getD "") = "" → pyStrip (scope.getD "") = "" →
      resolveStoreSlug db slug scope hint = .error noIndexedStoresError) := by
  refine ⟨?_, ?_, ?_⟩
  · intro s hs hns
    subst hs
    simp [resolveStoreSlug, hns]
  · intro hslug sc hsc hnsc
    subst hsc
    simp [resolveStoreSlug, hslug, hnsc]
  · intro hstores hprods hslug hscope
    simp only [resolveStoreSlug, hslug, hscope]
    simp only [ne_eq, not_true_eq_false, if_false, ite_false, reduceIte]
    simp [autoSelectStoreSlug, autoSelectStoreSlug.pastFts, autoSelectStoreSlug.pastFuzzy,
      autoSelectStoreSlug.pastPreferred, topSlugByMatches, hstores, hprods]

/-- C6 witness: the cascade at concrete inputs. -/
theorem resolveStoreSlug_cascade_witness :
    resolveStoreSlug ⟨[], [], fun _ _ => false⟩ (Option.some "acme") (Option.some "zeta") Option.none = .ok "acme" ∧
    resolveStoreSlug ⟨[], [], fun _ _ => false⟩ Option.none (Option.some "zeta") Option.none = .ok "zeta" ∧
    resolveStoreSlug ⟨[], [], fun _ _ => false⟩ Option.none Option.none (Option.some "serum") =
      .error noIndexedStoresError := by
  refine ⟨?_, ?_, ?_⟩
  · have h := (resolveStoreSlug_cascade ⟨[], [], fun _ _ => false⟩ (Option.some "acme")
      (Option.some "zeta") Option.none).1 "acme" rfl (by decide)
    have he : pyStrip "acme" = "acme" := by decide
    rwa [he] at h
  · have h := (resolveStoreSlug_cascade ⟨[], [], fun _ _ => false⟩ Option.none
      (Option.some "zeta") Option.none).2.1 (by decide) "zeta" rfl (by decide)
    have he : pyStrip "zeta" = "zeta" := by decide
    rwa [he] at h
  · exact (resolveStoreSlug_cascade ⟨[], [], fun _ _ => false⟩ Option.none Option.none
      (Option.some "serum")).2.2 rfl rfl (by decide) (by decide)

/-- C5 counterexample: the claim says floats are rounded half-up after the
times-100 scaling; the code uses Python `round` (ties to even).  At the
exactly representable float `0.125` under key `"price"` the code yields 12
while half-up yields 13. -/
theorem priceToCents_float_halfUp_counterexample :
    priceToCents (.float (1/8)) "price" = .int 12 ∧
    roundHalfUp ((1/8 : ℚ) * 100) = 13 ∧ (12 : ℤ) ≠ 13 := by
  refine ⟨?_, ?_, by decide⟩
  · simp +decide [priceToCents, roundHalfEven]
    norm_num [Int.fract]
  · simp only [roundHalfUp]
    norm_num

/-- C5 (amended): float prices are scaled by 100 and rounded half-to-even
(Python `round`); `Decimal` values and decimal strings with a decimal point
are scaled by 100 and rounded half-up; integers pass through; decimal
strings without a decimal point become their integer value; a key containing
`cents` skips the scaling. -/
theorem priceToCents_spec (key : String) (q : ℚ) (n : ℤ) (s : String) :
    (containsSub (pyLower key) "cents" = false →
      priceToCents (.float q) key = .int (roundHalfEven (q * 100)) ∧
      priceToCents (.dec q) key = .int (roundHalfUp (q * 100)) ∧
      (dropCommas (pyStrip s) ≠ "" → parseDecimal (dropCommas (pyStrip s)) = Option.some q →
        ('.' ∈ (dropCommas (pyStrip s)).data →
          priceToCents (.str s) key = .int (roundHalfUp (q * 100))) ∧
        ('.' ∉ (dropCommas (pyStrip s)).data →
          priceToCents (.str s) key = .int (ratTruncate q)))) ∧
    (containsSub (pyLower key) "cents" = true →
      priceToCents (.float q) key = .int (roundHalfEven q) ∧
      priceToCents (.dec q) key = .int (roundHalfUp q) ∧
      (dropCommas (pyStrip s) ≠ "" → parseDecimal (dropCommas (pyStrip s)) = Option.some q →
        priceToCents (.str s) key = .int (roundHalfUp q))) ∧
    priceToCents (.int n) key = .int n := by
  refine ⟨?_, ?_, by simp [priceToCents]⟩
  · intro hc
    refine ⟨by simp [priceToCents, hc], by simp [priceToCents, hc], ?_⟩
    intro hne hparse
    constructor <;> intro hdot <;>
      simp [priceToCents, hc, hne, hparse, List.contains, List.elem_iff, hdot]
  · intro hc
    refine ⟨by simp [priceToCents, hc], by simp [priceToCents, hc], ?_⟩
    intro hne hparse
    simp [priceToCents, hc, hne, hparse]

/-- C5 witness: the spec theorem instantiated at the key `"price"`, the
value `3/2`, the integer 7 and the string `"1.50"`. -/
theorem priceToCents_spec_witness :
    containsSub (pyLower "price") "cents" = false ∧
    priceToCents (.dec (3/2 : ℚ)) "price" = .int (roundHalfUp ((3/2 : ℚ) * 100)) ∧
    priceToCents (.int 7) "price" = .int 7 := by
  refine ⟨by decide, ?_, ?_⟩
  · exact ((priceToCents_spec "price" (3/2) 7 "1.50").1 (by decide)).2.1
  · exact (priceToCents_spec "price" (3/2) 7 "1.50").2.2

/-- Every accumulated score stays positive when each increment is positive. -/
theorem addScore_pos (acc : List (String × ℚ)) (pid : String) (inc : ℚ)
    (hacc : ∀ pr ∈ acc, 0 < pr.2) (hinc : 0 < inc) :
    ∀ pr ∈ addScore acc pid inc, 0 < pr.2 := by
  induction acc with
  | nil =>
    intro pr hpr
    simp only [addScore, List.mem_singleton] at hpr
    subst hpr
    exact hinc
  | cons hd tl ih =>
    rcases hd with ⟨k, v⟩
    intro pr hpr
    by_cases hk : k = pid
    · simp only [addScore, if_pos hk] at hpr
      rcases List.mem_cons.mp hpr with h | h
      · subst h
        exact add_pos (hacc (k, v) (List.mem_cons_self _ _)) hinc
      · exact hacc pr (List.mem_cons_of_mem _ h)
    · simp only [addScore, if_neg hk] at hpr
      rcases List.mem_cons.mp hpr with h | h
      · subst h
        exact hacc (k, v) (List.mem_cons_self _ _)
      · exact ih (fun x hx => hacc x (List.mem_cons_of_mem _ hx)) pr h

/-- The inner accumulation loop of `_rrf_fuse` preserves positivity of all
scores when every rank is at least 1. -/
theorem rrfInnerFold_pos (rk : List (String × ℤ)) (hrk : ∀ p ∈ rk, (1:ℤ) ≤ p.2) :
    ∀ acc : List (String × ℚ), (∀ pr ∈ acc, 0 < pr.2) →
      ∀ pr ∈ rk.foldl (fun acc2 p => addScore acc2 p.1 (1 / ((rrfK : ℚ) + (p.2 : ℚ)))) acc, 0 < pr.2 := by
  induction rk with
  | nil => intro acc hacc; simpa using hacc
  | cons p rest ih =>
    intro acc hacc
    simp only [List.foldl_cons]
    refine ih (fun x hx => hrk x (List.mem_cons_of_mem _ hx)) _ (addScore_pos acc p.1 _ hacc ?_)
    have h1 : (1:ℚ) ≤ (p.2 : ℚ) := by exact_mod_cast hrk p (List.mem_cons_self _ _)
    have hpos : 0 < (rrfK : ℚ) + (p.2 : ℚ) := by
      simp only [rrfK]
      push_cast
      linarith
    positivity

/-- Every fused score produced by `_rrf_fuse` is strictly positive when all
ranks are at least 1 (`row_number()` starts at 1). -/
theorem rrfScores_pos (rankings : List (List (String × ℤ)))
    (h : ∀ rk ∈ rankings, ∀ p ∈ rk, (1:ℤ) ≤ p.2) :
    ∀ pr ∈ rrfScores rankings, 0 < pr.2 := by
  unfold rrfScores
  have main : ∀ (rks : List (List (String × ℤ))) (acc : List (String × ℚ)),
      (∀ rk ∈ rks, ∀ p ∈ rk, (1:ℤ) ≤ p.2) → (∀ pr ∈ acc, 0 < pr.2) →
      ∀ pr ∈ rks.foldl
        (fun acc ranking => ranking.foldl (fun acc2 p => addScore acc2 p.1 (1 / ((rrfK : ℚ) + (p.2 : ℚ)))) acc)
        acc, 0 < pr.2 := by
    intro rks
    induction rks with
    | nil => intro acc _ hacc; simpa using hacc
    | cons rk rest ih =>
      intro acc hall hacc
      simp only [List.foldl_cons]
      exact ih _ (fun x hx => hall x (List.mem_cons_of_mem _ hx))
        (rrfInnerFold_pos rk (hall rk (List.mem_cons_self _ _)) acc hacc)
  exact main rankings [] h (by simp)

/-- Positivity carries over to the sorted, truncated fuse output. -/
theorem rrfFuse_pos (rankings : List (List (String × ℤ))) (limit : ℕ)
    (h : ∀ rk ∈ rankings, ∀ p ∈ rk, (1:ℤ) ≤ p.2) :
    ∀ pr ∈ rrfFuse rankings limit, 0 < pr.2 := by
  intro pr hpr
  have hmem : pr ∈ List.insertionSort rrfLe (rrfScores rankings) :=
    List.mem_of_mem_take hpr
  exact rrfScores_pos rankings h pr ((List.perm_insertionSort rrfLe _).mem_iff.mp hmem)

/-- C10: the `low_relevance` exclusion branch of `_search_products_v2` is
unreachable: every candidate reaching the exclusion stage comes from the
RRF-fused list, whose scores are sums of terms `1/(60 + rank)` with
`rank ≥ 1` (SQL `row_number()`), hence strictly positive, so
`excluded_counts.low_relevance` is 0 in every response. -/
theorem v2_low_relevance_zero (rankings : List (List (String × ℤ))) (limit : ℕ)
    (hydrated : String → Option CandidateInfo) (availableOnly : Bool)
    (budgetMaxCents budgetMinCents : Option ℤ)
    (hranks : ∀ rk ∈ rankings, ∀ p ∈ rk, (1:ℤ) ≤ p.2) :
    (v2ExcludedCounts (rrfFuse rankings limit) hydrated availableOnly
      budgetMaxCents budgetMinCents).lowRelevance = 0 := by
  have hpos := rrfFuse_pos rankings limit hranks
  unfold v2ExcludedCounts
  have main : ∀ (fused : List (String × ℚ)), (∀ pr ∈ fused, 0 < pr.2) →
      ∀ acc : ExcludedCounts,
      (fused.foldl
        (fun acc p =>
          match hydrated p.1 with
          | Option.none => acc
          | Option.some info =>
            if availableOnly && !info.available then { acc with unavailable := acc.unavailable + 1 }
            else if (match budgetMaxCents, info.priceMin with
                     | Option.some bm, Option.some pm => decide (pm > bm)
                     | _, _ => false) then { acc with overBudget := acc.overBudget + 1 }
            else if (match budgetMinCents, info.priceMax with
                     | Option.some bm, Option.some pM => decide (pM < bm)
                     | _, _ => false) then { acc with overBudget := acc.overBudget + 1 }
            else if p.2 ≤ 0 then { acc with lowRelevance := acc.lowRelevance + 1 }
            else acc)
        acc).lowRelevance = acc.lowRelevance := by
    intro fused
    induction fused with
    | nil => intro _ acc; simp
    | cons p rest ih =>
      intro hp acc
      simp only [List.foldl_cons]
      have hrest := fun pr hpr => hp pr (List.mem_cons_of_mem _ hpr)
      have hppos : 0 < p.2 := hp p (List.mem_cons_self _ _)
      have hnotle : ¬ p.2 ≤ 0 := not_le.mpr hppos
      cases hh : hydrated p.1 with
      | none => exact ih hrest acc
      | some info =>
        simp only [if_neg hnotle]
        rw [ih hrest]
        split
        · rfl
        · split
          · rfl
          · split <;> rfl
  exact main _ hpos ⟨0, 0, 0⟩

/-- C10 witness: the theorem applied at a one-ranking input. -/
theorem v2_low_relevance_zero_witness :
    (v2ExcludedCounts (rrfFuse [[("a", 1)]] 5) (fun _ => Option.none) true
      Option.none Option.none).lowRelevance = 0 :=
  v2_low_relevance_zero [[("a", 1)]] 5 (fun _ => Option.none) true Option.none Option.none
    (by decide)

/-- `lexLtB` is asymmetric. -/
theorem lexLtB_asymm : ∀ (a b : List Char), lexLtB a b = true → lexLtB b a = false := by
  intro a
  induction a with
  | nil =>
    intro b h
    cases b with
    | nil => simp [lexLtB] at h
    | cons y ys => simp [lexLtB]
  | cons x xs ih =>
    intro b h
    cases b with
    | nil => simp [lexLtB] at h
    | cons y ys =>
      simp only [lexLtB] at h ⊢
      by_cases h1 : x.toNat < y.toNat
      · rw [if_neg (by omega), if_pos h1]
      · by_cases h2 : y.toNat < x.toNat
        · rw [if_neg h1, if_pos h2] at h
          exact absurd h (by simp)
        · rw [if_neg h1, if_neg h2] at h
          rw [if_neg h2, if_neg h1]
          exact ih ys h

/-- `lexLtB` is transitive. -/
theorem lexLtB_trans : ∀ (a b c : List Char),
    lexLtB a b = true → lexLtB b c = true → lexLtB a c = true := by
  intro a
  induction a with
  | nil =>
    intro b c hab hbc
    cases b with
    | nil => simp [lexLtB] at hab
    | cons y ys =>
      cases c with
      | nil => simp [lexLtB] at hbc
      | cons z zs => simp [lexLtB]
  | cons x xs ih =>
    intro b c hab hbc
    cases b with
    | nil => simp [lexLtB] at hab
    | cons y ys =>
      cases c with
      | nil => simp [lexLtB] at hbc
      | cons z zs =>
        simp only [lexLtB] at hab hbc ⊢
        by_cases hxy : x.toNat < y.toNat
        · by_cases hyz : y.toNat < z.toNat
          · rw [if_pos (by omega)]
          · by_cases hzy : z.toNat < y.toNat
            · rw [if_neg hyz, if_pos hzy] at hbc
              exact absurd hbc (by simp)
            · rw [if_pos (show x.toNat < z.toNat by omega)]
        · by_cases hyx : y.toNat < x.toNat
          · rw [if_neg hxy, if_pos hyx] at hab
            exact absurd hab (by simp)
          · by_cases hyz : y.toNat < z.toNat
            · rw [if_pos (show x.toNat < z.toNat by omega)]
            · by_cases hzy : z.toNat < y.toNat
              · rw [if_neg hyz, if_pos hzy] at hbc
                exact absurd hbc (by simp)
              · rw [if_neg hxy, if_neg hyx] at hab
                rw [if_neg hyz, if_neg hzy] at hbc
                rw [if_neg (show ¬ x.toNat < z.toNat by omega),
                    if_neg (show ¬ z.toNat < x.toNat by omega)]
                exact ih ys zs hab hbc

/-- Two lists neither of which is lexicographically below the other are equal. -/
theorem lexLtB_connex : ∀ (a b : List Char),
    lexLtB a b = false → lexLtB b a = false → a = b := by
  intro a
  induction a with
  | nil =>
    intro b h1 _
    cases b with
    | nil => rfl
    | cons y ys => simp [lexLtB] at h1
  | cons x xs ih =>
    intro b h1 h2
    cases b with
    | nil => simp [lexLtB] at h2
    | cons y ys =>
      simp only [lexLtB] at h1 h2
      by_cases hxy : x.toNat < y.toNat
      · rw [if_pos hxy] at h1
        exact absurd h1 (by simp)
      · by_cases hyx : y.toNat < x.toNat
        · rw [if_pos hyx] at h2
          exact absurd h2 (by simp)
        · rw [if_neg hxy, if_neg hyx] at h1
          rw [if_neg hyx, if_neg hxy] at h2
          have hn : x.toNat = y.toNat := by omega
          have hchar : x = y := Char.ext (UInt32.ext (by simpa [Char.toNat] using hn))
          rw [hchar, ih ys h1 h2]

/-- The Python string order `strLeB` is total. -/
theorem strLeB_total (a b : String) : strLeB a b = true ∨ strLeB b a = true := by
  unfold strLeB lexLeB
  by_cases h : lexLtB b.data a.data = true
  · right
    simp [lexLtB_asymm _ _ h]
  · left
    simp [Bool.not_eq_true] at h
    simp [h]

/-- The Python string order `strLeB` is transitive. -/
theorem strLeB_trans (a b c : String) :
    strLeB a b = true → strLeB b c = true → strLeB a c = true := by
  unfold strLeB lexLeB
  intro hab hbc
  simp only [Bool.not_eq_true'] at hab hbc ⊢
  by_cases hca : lexLtB c.data a.data = true
  · by_cases hab2 : lexLtB a.data b.data = true
    · have := lexLtB_trans c.data a.data b.data hca hab2
      rw [hbc] at this
      exact absurd this (by simp)
    · have heq : a.data = b.data :=
        lexLtB_connex a.data b.data (by simpa using hab2) hab
      rw [heq] at hca
      rw [hbc] at hca
      exact absurd hca (by simp)
  · simpa using hca

/-- A weak inequality between distinct strings is strict. -/
theorem strLeB_ne_lt (a b : String) (hle : strLeB a b = true) (hne : a ≠ b) :
    strLtB a b = true := by
  unfold strLeB lexLeB at hle
  unfold strLtB
  simp only [Bool.not_eq_true'] at hle
  by_cases h : lexLtB a.data b.data = true
  · exact h
  · exfalso
    have heq : a.data = b.data := lexLtB_connex a.data b.data (by simpa using h) hle
    exact hne (congrArg String.mk heq)

instance : IsTotal (String × ℚ) rrfLe := by
  constructor
  intro a b
  rcases lt_trichotomy a.2 b.2 with h | h | h
  · exact Or.inr (Or.inl h)
  · rcases strLeB_total a.1 b.1 with hs | hs
    · exact Or.inl (Or.inr ⟨h, hs⟩)
    · exact Or.inr (Or.inr ⟨h.symm, hs⟩)
  · exact Or.inl (Or.inl h)

instance : IsTrans (String × ℚ) rrfLe := by
  constructor
  intro a b c hab hbc
  rcases hab with h1 | ⟨he1, hs1⟩
  · rcases hbc with h2 | ⟨he2, hs2⟩
    · exact Or.inl (h2.trans h1)
    · exact Or.inl (by rw [← he2]; exact h1)
  · rcases hbc with h2 | ⟨he2, hs2⟩
    · exact Or.inl (by rw [he1]; exact h2)
    · exact Or.inr ⟨he1.trans he2, strLeB_trans _ _ _ hs1 hs2⟩

/-- One `addScore` update changes the accumulated score of `pid` by exactly
the increment when the ids match, and not at all otherwise. -/
theorem scoreOf_addScore (acc : List (String × ℚ)) (k pid : String) (inc : ℚ) :
    scoreOf (addScore acc k inc) pid = scoreOf acc pid + (if k = pid then inc else 0) := by
  induction acc with
  | nil =>
    by_cases h : k = pid
    · subst h
      simp [addScore, scoreOf]
    · simp [addScore, scoreOf, h]
  | cons hd tl ih =>
    rcases hd with ⟨k', v⟩
    by_cases h : k' = k
    · subst h
      simp only [addScore, if_pos rfl]
      by_cases h2 : k' = pid
      · simp [scoreOf, h2]
      · simp [scoreOf, h2]
    · simp only [addScore, if_neg h]
      by_cases h2 : k' = pid
      · have hk : ¬ k = pid := fun hh => h (h2.trans hh.symm)
        simp [scoreOf, h2, hk]
      · simp [scoreOf, h2, ih]

/-- The inner ranking loop of `_rrf_fuse` adds, to the accumulated score of
`pid`, the sum of `1/(60 + rank)` over the occurrences of `pid` in the
ranking. -/
theorem scoreOf_rrfInnerFold (rk : List (String × ℤ)) (pid : String) :
    ∀ acc : List (String × ℚ),
      scoreOf (rk.foldl (fun acc2 p => addScore acc2 p.1 (1 / ((rrfK : ℚ) + (p.2 : ℚ)))) acc) pid =
        scoreOf acc pid +
          ((rk.filter (fun p => p.1 = pid)).map (fun p => 1 / ((rrfK : ℚ) + (p.2 : ℚ)))).sum := by
  induction rk with
  | nil => simp
  | cons p rest ih =>
    intro acc
    simp only [List.foldl_cons]
    rw [ih, scoreOf_addScore]
    by_cases h : p.1 = pid
    · simp [List.filter_cons, h]
      ring
    · simp [List.filter_cons, h]

/-- C3-supporting lemma: `_rrf_fuse` assigns each id the total reciprocal
rank score over all rankings. -/
theorem rrfScores_scoreOf (rankings : List (List (String × ℤ))) (pid : String) :
    scoreOf (rrfScores rankings) pid =
      (rankings.map (fun rk =>
        ((rk.filter (fun p => p.1 = pid)).map (fun p => 1 / ((rrfK : ℚ) + (p.2 : ℚ)))).sum)).sum := by
  unfold rrfScores
  have main : ∀ (rks : List (List (String × ℤ))) (acc : List (String × ℚ)),
      scoreOf (rks.foldl
        (fun acc ranking => ranking.foldl (fun acc2 p => addScore acc2 p.1 (1 / ((rrfK : ℚ) + (p.2 : ℚ)))) acc)
        acc) pid =
      scoreOf acc pid +
        (rks.map (fun rk =>
          ((rk.filter (fun p => p.1 = pid)).map (fun p => 1 / ((rrfK : ℚ) + (p.2 : ℚ)))).sum)).sum := by
    intro rks
    induction rks with
    | nil => simp
    | cons rk rest ih =>
      intro acc
      simp only [List.foldl_cons, List.map_cons, List.sum_cons]
      rw [ih, scoreOf_rrfInnerFold]
      ring
  simpa [scoreOf] using main rankings []

/-- The keys of the accumulator after one `addScore` update. -/
theorem addScore_keys (acc : List (String × ℚ)) (pid : String) (inc : ℚ) :
    (addScore acc pid inc).map Prod.fst =
      if pid ∈ acc.map Prod.fst then acc.map Prod.fst else acc.map Prod.fst ++ [pid] := by
  induction acc with
  | nil => simp [addScore]
  | cons hd tl ih =>
    rcases hd with ⟨k, v⟩
    by_cases h : k = pid
    · subst h
      simp [addScore]
    · simp only [addScore, if_neg h, List.map_cons, ih, List.mem_cons]
      by_cases h2 : pid ∈ tl.map Prod.fst
      · simp [h2, Ne.symm h]
      · simp [h2, Ne.symm h]

/-- `addScore` preserves distinctness of the accumulated ids. -/
theorem addScore_nodup (acc : List (String × ℚ)) (pid : String) (inc : ℚ)
    (h : (acc.map Prod.fst).Nodup) : ((addScore acc pid inc).map Prod.fst).Nodup := by
  rw [addScore_keys]
  by_cases hmem : pid ∈ acc.map Prod.fst
  · simpa [hmem] using h
  · simp only [hmem, if_false, reduceIte]
    exact List.Nodup.append h (List.nodup_singleton pid) (by simpa using hmem)

/-- The ids accumulated by `_rrf_fuse` are pairwise distinct. -/
theorem rrfScores_nodup (rankings : List (List (String × ℤ))) :
    ((rrfScores rankings).map Prod.fst).Nodup := by
  unfold rrfScores
  have inner : ∀ (rk : List (String × ℤ)) (acc : List (String × ℚ)),
      (acc.map Prod.fst).Nodup →
      ((rk.foldl (fun acc2 p => addScore acc2 p.1 (1 / ((rrfK : ℚ) + (p.2 : ℚ)))) acc).map Prod.fst).Nodup := by
    intro rk
    induction rk with
    | nil => intro acc h; simpa using h
    | cons p rest ih =>
      intro acc h
      simp only [List.foldl_cons]
      exact ih _ (addScore_nodup acc p.1 _ h)
  have main : ∀ (rks : List (List (String × ℤ))) (acc : List (String × ℚ)),
      (acc.map Prod.fst).Nodup →
      ((rks.foldl
        (fun acc ranking => ranking.foldl (fun acc2 p => addScore acc2 p.1 (1 / ((rrfK : ℚ) + (p.2 : ℚ)))) acc)
        acc).map Prod.fst).Nodup := by
    intro rks
    induction rks with
    | nil => intro acc h; simpa using h
    | cons rk rest ih =>
      intro acc h
      simp only [List.foldl_cons]
      exact ih _ (inner rk acc h)
  exact main rankings [] (by simp)

/-- C3 counterexample: two candidates appearing only at rank 1 of two
different rankings fuse to the same score `1/61`; the sort breaks the tie by
ascending product id, so the sorted scores are not strictly decreasing. -/
theorem rrfFuse_strictDesc_counterexample :
    rrfFuse [[("a", 1)], [("b", 1)]] 10 = [("a", (1 : ℚ)/61), ("b", (1 : ℚ)/61)] ∧
    ¬ List.Chain' (fun x y : String × ℚ => y.2 < x.2) (rrfFuse [[("a", 1)], [("b", 1)]] 10) := by
  have h61 : (rrfK : ℚ) + 1 = 61 := by
    unfold rrfK
    push_cast
    norm_num
  have hscores : rrfScores [[("a", 1)], [("b", 1)]] = [("a", (1 : ℚ)/61), ("b", (1 : ℚ)/61)] := by
    simp [rrfScores, addScore, Int.cast_one, h61]
  have hle : rrfLe ("a", (61 : ℚ)⁻¹) ("b", (61 : ℚ)⁻¹) := Or.inr ⟨rfl, by decide⟩
  have hfuse : rrfFuse [[("a", 1)], [("b", 1)]] 10 = [("a", (1 : ℚ)/61), ("b", (1 : ℚ)/61)] := by
    rw [rrfFuse, hscores]
    simp [List.insertionSort, List.orderedInsert, hle, one_div]
  refine ⟨hfuse, ?_⟩
  rw [hfuse]
  intro hchain
  have := (List.chain'_cons.mp hchain).1
  norm_num at this

/-- C3 (amended): `_rrf_fuse` assigns each id the score
`Σ over lists of 1/(60 + rank_in_list)` and sorts by score descending with
ties broken by ascending product id; consecutive entries of the output have
strictly decreasing scores or equal scores with strictly ascending ids (the
ids are pairwise distinct), so the score sequence is non-increasing but not
strictly decreasing in general. -/
theorem rrfFuse_spec (rankings : List (List (String × ℤ))) (limit : ℕ) :
    (∀ pid : String,
      scoreOf (rrfScores rankings) pid =
        (rankings.map (fun rk =>
          ((rk.filter (fun p => p.1 = pid)).map (fun p => 1 / ((rrfK : ℚ) + (p.2 : ℚ)))).sum)).sum) ∧
    List.Sorted rrfLe (rrfFuse rankings limit) ∧
    List.Chain' (fun x y : String × ℚ => y.2 < x.2 ∨ (x.2 = y.2 ∧ strLtB x.1 y.1 = true))
      (rrfFuse rankings limit) := by
  have hsorted : List.Sorted rrfLe (rrfFuse rankings limit) :=
    List.Pairwise.sublist (List.take_sublist _ _) (List.sorted_insertionSort rrfLe _)
  refine ⟨fun pid => rrfScores_scoreOf rankings pid, hsorted, ?_⟩
  have hnodup : ((List.insertionSort rrfLe (rrfScores rankings)).map Prod.fst).Nodup :=
    (((List.perm_insertionSort rrfLe (rrfScores rankings)).map Prod.fst).nodup_iff).mpr
      (rrfScores_nodup rankings)
  have hnodup2 : ((rrfFuse rankings limit).map Prod.fst).Nodup :=
    List.Nodup.sublist ((List.take_sublist _ _).map Prod.fst) hnodup
  have hpw : List.Pairwise (fun x y : String × ℚ => x.1 ≠ y.1) (rrfFuse rankings limit) :=
    List.pairwise_map.mp hnodup2
  refine List.Chain'.imp ?_ (List.Pairwise.chain' (hsorted.and hpw))
  rintro x y ⟨hle, hne⟩
  rcases hle with h | ⟨he, hs⟩
  · exact Or.inl h
  · exact Or.inr ⟨he, strLeB_ne_lt _ _ hs hne⟩

/-- C4 counterexample: the blank-query early return of `_search_products_v2`
is emitted raw (no `format_payload` pass), and when the budget arguments are
absent its `applied_filters` sub-dict carries literal nulls. -/
theorem searchV2EmptyQuery_null_counterexample :
    noNone (searchV2EmptyQueryPayload true Option.none Option.none Option.none) = false ∧
    (match searchV2EmptyQueryPayload true Option.none Option.none Option.none with
     | .obj kvs => lookupKey kvs "applied_filters"
     | _ => Option.none) =
      Option.some (.obj
        [("available_only", .bool true), ("budget_max_cents", .none),
         ("budget_min_cents", .none), ("skin_tone", .none)]) := by
  constructor
  · rfl
  · rfl

/-- `_price_to_cents` never introduces a `None`. -/
theorem priceToCents_noNone (v : PyVal) (key : String) (h : noNone v = true) :
    noNone (priceToCents v key) = true := by
  unfold priceToCents
  split
  · simp [noNone]
  · simp [noNone]
  · dsimp only
    split <;> simp [noNone]
  · dsimp only
    split <;> simp [noNone]
  · dsimp only
    split
    · simp [noNone]
    · split
      · simp [noNone]
      · split
        · simp [noNone]
        · split <;> simp [noNone]
  · rename_i hv1 hv2 hv3 hv4 hv5
    exact h

/-- The key coercions of `_normalize` never introduce a `None`. -/
theorem keyTransform_noNone (v : PyVal) (key : Option String) (h : noNone v = true) :
    noNone (keyTransform v key) = true := by
  unfold keyTransform
  by_cases hp : isPriceKey key <;> by_cases ha : isAvailKey key <;>
    simp [hp, ha, noNone, priceToCents_noNone _ _ h, h]

mutual

/-- Whatever `_normalize` returns (when it does not omit the value) is free
of `None`. -/
theorem normalizePy_noNone : ∀ (v : PyVal) (key : Option String) (ks : List String) (r : PyVal),
    normalizePy v key ks = Option.some r → noNone r = true
  | .none, key, ks, r => by
    intro h
    unfold normalizePy at h
    match key with
    | Option.none => simp at h
    | Option.some k =>
      simp only at h
      by_cases hk : k ∈ ks
      · rw [if_pos hk] at h
        cases h
        rfl
      · rw [if_neg hk] at h
        cases h
  | .obj kvs, key, ks, r => by
    intro h
    unfold normalizePy at h
    by_cases ha : isAvailKey key
    · rw [if_pos ha] at h
      cases h
      rfl
    · rw [if_neg ha] at h
      cases h
      simpa [noNone] using normalizeEntries_noNone kvs ks
  | .list xs, key, ks, r => by
    intro h
    unfold normalizePy at h
    by_cases ha : isAvailKey key
    · rw [if_pos ha] at h
      cases h
      rfl
    · rw [if_neg ha] at h
      cases h
      simpa [noNone] using normalizeItems_noNone xs ks
  | .bool b, key, ks, r => by
    intro h
    have hkt := keyTransform_noNone (.bool b) key rfl
    unfold normalizePy at h
    revert h
    split
    · intro h
      cases h
      simp [noNone]
    · intro h
      cases h
      exact hkt
  | .int n, key, ks, r => by
    intro h
    have hkt := keyTransform_noNone (.int n) key rfl
    unfold normalizePy at h
    revert h
    split
    · intro h
      cases h
      simp [noNone]
    · intro h
      cases h
      exact hkt
  | .float q0, key, ks, r => by
    intro h
    have hkt := keyTransform_noNone (.float q0) key rfl
    unfold normalizePy at h
    revert h
    split
    · intro h
      cases h
      simp [noNone]
    · intro h
      cases h
      exact hkt
  | .dec q0, key, ks, r => by
    intro h
    have hkt := keyTransform_noNone (.dec q0) key rfl
    unfold normalizePy at h
    revert h
    split
    · intro h
      cases h
      simp [noNone]
    · intro h
      cases h
      exact hkt
  | .str s, key, ks, r => by
    intro h
    have hkt := keyTransform_noNone (.str s) key rfl
    unfold normalizePy at h
    revert h
    split
    · intro h
      cases h
      simp [noNone]
    · intro h
      cases h
      exact hkt

/-- The normalized entries of a dict are free of `None`. -/
theorem normalizeEntries_noNone : ∀ (kvs : List (String × PyVal)) (ks : List String),
    noNoneEntries (normalizeEntries kvs ks) = true
  | [], ks => by simp [normalizeEntries, noNoneEntries]
  | (k, cv) :: rest, ks => by
    unfold normalizeEntries
    cases h : normalizePy cv (Option.some k) ks with
    | none =>
      by_cases hk : k ∈ ks
      · rw [if_pos hk]
        simp only [noNoneEntries, noNone, noNoneItems, Bool.true_and]
        exact normalizeEntries_noNone rest ks
      · rw [if_neg hk]
        exact normalizeEntries_noNone rest ks
    | some nv =>
      simp only [noNoneEntries]
      rw [normalizePy_noNone cv (Option.some k) ks nv h, normalizeEntries_noNone rest ks]
      rfl

/-- The normalized items of a list are free of `None`. -/
theorem normalizeItems_noNone : ∀ (xs : List PyVal) (ks : List String),
    noNoneItems (normalizeItems xs ks) = true
  | [], ks => by simp [normalizeItems, noNoneItems]
  | x :: rest, ks => by
    unfold normalizeItems
    cases h : normalizePy x Option.none ks with
    | none => exact normalizeItems_noNone rest ks
    | some nx =>
      simp only [noNoneItems]
      rw [normalizePy_noNone x Option.none ks nx h, normalizeItems_noNone rest ks]
      rfl

end

/-- Keys absent from a dict stay absent from its normalized entries. -/
theorem lookupKey_normalizeEntries_notMem :
    ∀ (kvs : List (String × PyVal)) (ks : List String) (k : String),
      k ∉ kvs.map Prod.fst → lookupKey (normalizeEntries kvs ks) k = Option.none := by
  intro kvs
  induction kvs with
  | nil => intro ks k _; simp [normalizeEntries, lookupKey]
  | cons hd rest ih =>
    rcases hd with ⟨k', cv⟩
    intro ks k hk
    simp only [List.map_cons, List.mem_cons] at hk
    push_neg at hk
    obtain ⟨hne, hrest⟩ := hk
    have hne' : ¬ (k' = k) := fun hh => hne hh.symm
    unfold normalizeEntries
    cases hn : normalizePy cv (Option.some k') ks with
    | none =>
      by_cases hk2 : k' ∈ ks
      · rw [if_pos hk2]
        simp only [lookupKey, if_neg hne']
        exact ih ks k hrest
      · rw [if_neg hk2]
        exact ih ks k hrest
    | some nv =>
      simp only [lookupKey, if_neg hne']
      exact ih ks k hrest

/-- A dict entry holding `None` under a unique key either resurfaces as `[]`
(key in the array set) or is omitted. -/
theorem lookupKey_normalizeEntries_none :
    ∀ (kvs : List (String × PyVal)) (ks : List String) (k : String),
      (kvs.map Prod.fst).Nodup → (k, PyVal.none) ∈ kvs →
      (k ∈ ks → lookupKey (normalizeEntries kvs ks) k = Option.some (.list [])) ∧
      (k ∉ ks → lookupKey (normalizeEntries kvs ks) k = Option.none) := by
  intro kvs
  induction kvs with
  | nil => intro ks k _ hmem; simp at hmem
  | cons hd rest ih =>
    rcases hd with ⟨k', cv⟩
    intro ks k hnd hmem
    have hndtail : (rest.map Prod.fst).Nodup := (List.nodup_cons.mp (by simpa using hnd)).2
    have hhead : k' ∉ rest.map Prod.fst := (List.nodup_cons.mp (by simpa using hnd)).1
    by_cases hk : k' = k
    · subst hk
      have hcv : cv = PyVal.none := by
        rcases List.mem_cons.mp hmem with h | h
        · exact (congrArg Prod.snd h).symm
        · exfalso
          exact hhead (List.mem_map.mpr ⟨(k', PyVal.none), h, rfl⟩)
      subst hcv
      constructor
      · intro hin
        unfold normalizeEntries normalizePy
        simp only [if_pos hin]
        simp [lookupKey]
      · intro hout
        unfold normalizeEntries normalizePy
        simp only [if_neg hout]
        exact lookupKey_normalizeEntries_notMem rest ks k' hhead
    · have hmem' : (k, PyVal.none) ∈ rest := by
        rcases List.mem_cons.mp hmem with h | h
        · exact absurd (congrArg Prod.fst h.symm) hk
        · exact h
      have := ih ks k hndtail hmem'
      unfold normalizeEntries
      cases hn : normalizePy cv (Option.some k') ks with
      | none =>
        by_cases hk2 : k' ∈ ks
        · rw [if_pos hk2]
          simpa only [lookupKey, if_neg hk] using this
        · rw [if_neg hk2]
          exact this
      | some nv =>
        simpa only [lookupKey, if_neg hk] using this

/-- C4 (amended): every payload passed through `format_payload` is free of
literal nulls: a `None`-valued key in the union of the built-in array-key
hint set and the caller-supplied set is emitted as `[]`, while any other
`None`-valued key is omitted.  The blank-query early return of
`_search_products_v2` bypasses the normalizer and can emit nulls (see the
counterexample). -/
theorem formatPayload_no_nulls (p : PyVal) (ks : List String) :
    noNone (formatPayload p ks) = true ∧
    (∀ kvs : List (String × PyVal), p = .obj kvs →
      formatPayload p ks = .obj (normalizeEntries kvs (arrayKeyHints ++ ks))) ∧
    (∀ (kvs : List (String × PyVal)) (k : String),
      (kvs.map Prod.fst).Nodup → (k, PyVal.none) ∈ kvs →
      (k ∈ arrayKeyHints ++ ks →
        lookupKey (normalizeEntries kvs (arrayKeyHints ++ ks)) k = Option.some (.list [])) ∧
      (k ∉ arrayKeyHints ++ ks →
        lookupKey (normalizeEntries kvs (arrayKeyHints ++ ks)) k = Option.none)) := by
  refine ⟨?_, ?_, ?_⟩
  · unfold formatPayload
    dsimp only
    cases hm : normalizePy p Option.none (arrayKeyHints ++ ks) with
    | none => rfl
    | some v => exact normalizePy_noNone p Option.none (arrayKeyHints ++ ks) v hm
  · intro kvs hp
    subst hp
    simp [formatPayload, normalizePy, isAvailKey]
  · intro kvs k hnd hmem
    exact lookupKey_normalizeEntries_none kvs (arrayKeyHints ++ ks) k hnd hmem

/-- C4 witness: the normalizer at a concrete payload with two null entries,
one under an array-hint key. -/
theorem formatPayload_no_nulls_witness :
    noNone (formatPayload (.obj [("tags", PyVal.none), ("foo", PyVal.none)]) []) = true ∧
    formatPayload (.obj [("tags", PyVal.none), ("foo", PyVal.none)]) [] =
      .obj (normalizeEntries [("tags", PyVal.none), ("foo", PyVal.none)] (arrayKeyHints ++ [])) ∧
    lookupKey (normalizeEntries [("tags", PyVal.none), ("foo", PyVal.none)] (arrayKeyHints ++ [])) "tags" =
      Option.some (.list []) ∧
    lookupKey (normalizeEntries [("tags", PyVal.none), ("foo", PyVal.none)] (arrayKeyHints ++ [])) "foo" =
      Option.none := by
  refine ⟨(formatPayload_no_nulls (.obj [("tags", PyVal.none), ("foo", PyVal.none)]) []).1,
    (formatPayload_no_nulls (.obj [("tags", PyVal.none), ("foo", PyVal.none)]) []).2.1 _ rfl, ?_, ?_⟩
  · exact ((formatPayload_no_nulls (.obj [("tags", PyVal.none), ("foo", PyVal.none)]) []).2.2
      [("tags", PyVal.none), ("foo", PyVal.none)] "tags" (by decide)
      (List.mem_cons_self _ _)).1 (by decide)
  · exact ((formatPayload_no_nulls (.obj [("tags", PyVal.none), ("foo", PyVal.none)]) []).2.2
      [("tags", PyVal.none), ("foo", PyVal.none)] "foo" (by decide)
      (List.mem_cons_of_mem _ (List.mem_cons_self _ _))).2 (by decide)

/-- Looking up the key just written by `jsonSet` yields the new value. -/
theorem jsonGet_jsonSet_same (kvs : List (String × Json)) (k : String) (v : Json) :
    jsonGet (jsonSet kvs k v) k = Option.some v := by
  induction kvs with
  | nil => simp [jsonSet, jsonGet]
  | cons hd rest ih =>
    rcases hd with ⟨k', v'⟩
    by_cases h : k' = k
    · simp [jsonSet, jsonGet, h]
    · simp [jsonSet, jsonGet, h, ih]

/-- `jsonSet` leaves lookups at other keys unchanged. -/
theorem jsonGet_jsonSet_other (kvs : List (String × Json)) (k' k : String) (v : Json)
    (hne : k' ≠ k) : jsonGet (jsonSet kvs k' v) k = jsonGet kvs k := by
  induction kvs with
  | nil => simp [jsonSet, jsonGet, hne]
  | cons hd rest ih =>
    rcases hd with ⟨k0, v0⟩
    by_cases h : k0 = k'
    · subst h
      simp [jsonSet, jsonGet, hne]
    · by_cases h2 : k0 = k
      · subst h2
        simp [jsonSet, jsonGet, h, Ne.symm hne]
      · simp [jsonSet, jsonGet, h, h2, ih]

/-- Writing back the value a key already holds is a no-op on the dict. -/
theorem jsonSet_self (kvs : List (String × Json)) (k : String) (v : Json)
    (h : jsonGet kvs k = Option.some v) : jsonSet kvs k v = kvs := by
  induction kvs with
  | nil => simp [jsonGet] at h
  | cons hd rest ih =>
    rcases hd with ⟨k0, v0⟩
    by_cases hk : k0 = k
    · subst hk
      simp [jsonGet] at h
      simp [jsonSet, h]
    · simp only [jsonGet, if_neg hk] at h
      simp [jsonSet, hk, ih h]

/-- Entries under other keys survive a `jsonSet`. -/
theorem jsonSet_entry_mem (kvs : List (String × Json)) (k0 : String) (v0 : Json)
    (k : String) (v : Json) (hmem : (k0, v0) ∈ kvs) (hne : k0 ≠ k) :
    (k0, v0) ∈ jsonSet kvs k v := by
  induction kvs with
  | nil => simp at hmem
  | cons hd rest ih =>
    rcases hd with ⟨k1, v1⟩
    by_cases h : k1 = k
    · subst h
      rcases List.mem_cons.mp hmem with hh | hh
      · exact absurd (congrArg Prod.fst hh) hne
      · simp [jsonSet, List.mem_cons, hh]
    · rcases List.mem_cons.mp hmem with hh | hh
      · simp [jsonSet, h, hh]
      · simp only [jsonSet, if_neg h]
        exact List.mem_cons_of_mem _ (ih hh)

/-- The serialized size of an object dominates the size of each entry value. -/
theorem serializedBytes_obj_ge_entry (kvs : List (String × Json)) (k : String) (v : Json)
    (hmem : (k, v) ∈ kvs) : serializedBytes v ≤ serializedBytes (.obj kvs) := by
  have hobj : ∀ (l : List (String × Json)), (k, v) ∈ l → serializedBytes v ≤ objBytes l := by
    intro l
    induction l with
    | nil => intro h; simp at h
    | cons hd rest ih =>
      intro h
      rcases List.mem_cons.mp h with hh | hh
      · rw [← hh]
        simp only [objBytes]
        omega
      · have := ih hh
        rcases hd with ⟨k1, v1⟩
        simp only [objBytes]
        omega
  have := hobj kvs hmem
  simp only [serializedBytes]
  omega

/-- The pop loop of `_enforce_payload_cap`: a returned payload fits the cap
and holds a strict prefix of the original results with `truncated: true`. -/
theorem popLoop_some (payload : List (String × Json)) (maxBytes : ℕ) :
    ∀ (n : ℕ) (rs : List Json), rs.length ≤ n → ∀ r, popLoop payload maxBytes rs = Option.some r →
      serializedBytes (.obj r) ≤ maxBytes ∧
      ∃ k, k < rs.length ∧
        r = jsonSet (jsonSet payload "results" (.arr (rs.take k))) "truncated" (.bool true) := by
  intro n
  induction n with
  | zero =>
    intro rs hlen r h
    match rs with
    | [] => simp [popLoop] at h
  | succ n ih =>
    intro rs hlen r h
    match rs with
    | [] => simp [popLoop] at h
    | x :: rest =>
      rw [popLoop] at h
      set rs' := (x :: rest).dropLast with hrs'
      by_cases hfit : serializedBytes
          (.obj (jsonSet (jsonSet payload "results" (.arr rs')) "truncated" (.bool true))) ≤ maxBytes
      · rw [if_pos hfit] at h
        cases h
        refine ⟨hfit, rest.length, by simp, ?_⟩
        rw [hrs', List.dropLast_eq_take]
        simp
      · rw [if_neg hfit] at h
        have hlen' : rs'.length ≤ n := by
          rw [hrs', List.dropLast_eq_take]
          simp at hlen ⊢
          omega
        obtain ⟨hsz, k, hk, heq⟩ := ih rs' hlen' r h
        refine ⟨hsz, k, ?_, ?_⟩
        · have : rs'.length = rest.length := by
            rw [hrs', List.dropLast_eq_take]
            simp
          simp only [List.length_cons]
          omega
        · rw [heq, hrs', List.dropLast_eq_take, List.take_take]
          congr 3
          have hkle : k ≤ rest.length := by
            have : rs'.length = rest.length := by
              rw [hrs', List.dropLast_eq_take]
              simp
            omega
          simp
          omega

/-- C2 (amended): `_enforce_payload_cap` pops results from the end and flags
`truncated` whenever the payload exceeds the cap, and its output fits the
12 KiB cap provided the payload with an emptied results list fits it; a
payload that fits passes through unchanged.  When even the empty-results
fallback exceeds the cap (e.g. a very long query echoed in the payload) the
output exceeds the cap — see the counterexample. -/
theorem enforcePayloadCap_spec (payload : List (String × Json)) (maxBytes : ℕ)
    (rs : List Json) (tr0 : Bool)
    (hres : jsonGet payload "results" = Option.some (.arr rs))
    (htr : jsonGet payload "truncated" = Option.some (.bool tr0))
    (hfb : serializedBytes (.obj (jsonSet (jsonSet payload "results" (.arr []))
      "truncated" (.bool true))) ≤ maxBytes) :
    serializedBytes (.obj (enforcePayloadCap payload maxBytes)) ≤ maxBytes ∧
    (serializedBytes (.obj payload) ≤ maxBytes → enforcePayloadCap payload maxBytes = payload) ∧
    (¬ serializedBytes (.obj payload) ≤ maxBytes →
      ∃ k ≤ rs.length,
        enforcePayloadCap payload maxBytes =
          jsonSet (jsonSet payload "results" (.arr (rs.take k))) "truncated" (.bool true) ∧
        jsonGet (enforcePayloadCap payload maxBytes) "results" = Option.some (.arr (rs.take k)) ∧
        jsonGet (enforcePayloadCap payload maxBytes) "truncated" = Option.some (.bool true)) := by
  have hpass : serializedBytes (.obj payload) ≤ maxBytes →
      enforcePayloadCap payload maxBytes = payload := by
    intro hsz
    unfold enforcePayloadCap
    rw [if_pos hsz, htr]
    exact jsonSet_self payload "truncated" (.bool tr0) htr
  by_cases hsz : serializedBytes (.obj payload) ≤ maxBytes
  · refine ⟨?_, hpass, fun hc => absurd hsz hc⟩
    rw [hpass hsz]
    exact hsz
  · have hlist : resultsListOf payload = rs := by
      unfold resultsListOf
      rw [hres]
    have henf : enforcePayloadCap payload maxBytes =
        (match popLoop payload maxBytes rs with
         | Option.some reduced => reduced
         | Option.none => jsonSet (jsonSet payload "results" (.arr [])) "truncated" (.bool true)) := by
      unfold enforcePayloadCap
      rw [if_neg hsz, hlist]
    cases hpop : popLoop payload maxBytes rs with
    | some reduced =>
      obtain ⟨hsize, k, hk, heq⟩ :=
        popLoop_some payload maxBytes rs.length rs le_rfl reduced hpop
      rw [henf, hpop]
      refine ⟨hsize, fun hc => absurd hc hsz, fun _ => ⟨k, le_of_lt hk, heq, ?_, ?_⟩⟩
      · rw [heq, jsonGet_jsonSet_other _ _ _ _ (by decide), jsonGet_jsonSet_same]
      · rw [heq, jsonGet_jsonSet_same]
    | none =>
      rw [henf, hpop]
      refine ⟨hfb, fun hc => absurd hc hsz, fun _ => ⟨0, Nat.zero_le _, by simp, ?_, ?_⟩⟩
      · rw [jsonGet_jsonSet_other _ _ _ _ (by decide), jsonGet_jsonSet_same]
        simp
      · rw [jsonGet_jsonSet_same]

/-- C2 witness: the cap applied to a small, already fitting payload. -/
theorem enforcePayloadCap_spec_witness :
    serializedBytes (.obj (enforcePayloadCap
      [("results", Json.arr []), ("truncated", Json.bool false)] v2PayloadLimitBytes)) ≤
      v2PayloadLimitBytes ∧
    enforcePayloadCap [("results", Json.arr []), ("truncated", Json.bool false)] v2PayloadLimitBytes =
      [("results", Json.arr []), ("truncated", Json.bool false)] := by
  refine ⟨(enforcePayloadCap_spec [("results", Json.arr []), ("truncated", Json.bool false)]
      v2PayloadLimitBytes [] false rfl rfl (by decide)).1,
    (enforcePayloadCap_spec [("results", Json.arr []), ("truncated", Json.bool false)]
      v2PayloadLimitBytes [] false rfl rfl (by decide)).2.1 (by decide)⟩

set_option maxRecDepth 2000 in
/-- C2 counterexample: the cap only pops results.  For a blank-candidate
response to a 13000-character query (echoed in both `query` and `summary`),
even the worst-case output — empty results, `truncated: true` — exceeds the
12 KiB limit, so not every `search_products_v2` response serializes to at
most 12 KiB. -/
theorem searchV2PayloadCap_counterexample :
    let bigQ := String.mk (List.replicate 13000 'a')
    let apos := String.mk [Char.ofNat 39]
    let payload : List (String × Json) :=
      [("store_slug", .str "acme"), ("query", .str bigQ),
       ("summary", .str ("Top 0 results for " ++ apos ++ bigQ ++ apos ++ ".")),
       ("applied_filters", .obj
         [("available_only", .bool true), ("budget_max_cents", .null),
          ("budget_min_cents", .null), ("skin_tone", .null)]),
       ("excluded_counts", .obj
         [("over_budget", .int 0), ("unavailable", .int 0), ("low_relevance", .int 0)]),
       ("results", .arr []), ("truncated", .bool false), ("cache_hit", .bool false)]
    v2PayloadLimitBytes < serializedBytes (.obj (enforcePayloadCap payload v2PayloadLimitBytes)) ∧
    jsonGet (enforcePayloadCap payload v2PayloadLimitBytes) "truncated" = Option.some (.bool true) ∧
    jsonGet (enforcePayloadCap payload v2PayloadLimitBytes) "results" = Option.some (.arr []) := by
  intro bigQ apos payload
  have hq : serializedBytes (Json.str bigQ) = 13002 := by
    show strBytes bigQ = 13002
    simp only [bigQ, strBytes,
      show (String.mk (List.replicate 13000 'a')).data = List.replicate 13000 'a' from rfl,
      List.map_replicate, List.sum_replicate, show escBytes 'a' = 1 from by decide]
    norm_num
  have hment : ("query", Json.str bigQ) ∈ payload := by
    simp only [payload]
    exact List.mem_cons_of_mem _ (List.mem_cons_self _ _)
  have hgt : 13002 ≤ serializedBytes (.obj payload) := by
    have h0 := serializedBytes_obj_ge_entry payload "query" (Json.str bigQ) hment
    rw [hq] at h0
    exact h0
  have hnot : ¬ serializedBytes (.obj payload) ≤ v2PayloadLimitBytes := by
    simp only [v2PayloadLimitBytes]
    omega
  have hlist : resultsListOf payload = [] := rfl
  have henf : enforcePayloadCap payload v2PayloadLimitBytes =
      jsonSet (jsonSet payload "results" (.arr [])) "truncated" (.bool true) := by
    unfold enforcePayloadCap
    rw [if_neg hnot, hlist]
    simp only [popLoop]
  refine ⟨?_, ?_, ?_⟩
  · rw [henf]
    have hmem2 : ("query", Json.str bigQ) ∈
        jsonSet (jsonSet payload "results" (.arr [])) "truncated" (.bool true) :=
      jsonSet_entry_mem _ _ _ _ _
        (jsonSet_entry_mem _ _ _ _ _ hment (by decide)) (by decide)
    have h1 := serializedBytes_obj_ge_entry _ "query" (Json.str bigQ) hmem2
    rw [hq] at h1
    simp only [v2PayloadLimitBytes]
    omega
  · rw [henf, jsonGet_jsonSet_same]
  · rw [henf, jsonGet_jsonSet_other _ _ _ _ (by decide), jsonGet_jsonSet_same]

/-- Unicode code points are below `0x110000`. -/
theorem char_toNat_lt (c : Char) : c.toNat < 1114112 := by
  have h := c.valid
  rcases h with h | h
  · simp only [Char.toNat]
    omega
  · simp only [Char.toNat]
    omega

/-- Characters `quote` leaves literal are ASCII and are not `%`. -/
theorem isUnreserved_ascii (c : Char) (h : isUnreservedChar c = true) :
    c.toNat < 0x80 ∧ c ≠ '%' := by
  unfold isUnreservedChar at h
  simp only [Bool.or_eq_true, Bool.and_eq_true, decide_eq_true_eq,
    show 'A'.toNat = 65 from rfl, show 'Z'.toNat = 90 from rfl,
    show 'a'.toNat = 97 from rfl, show 'z'.toNat = 122 from rfl,
    show '0'.toNat = 48 from rfl, show '9'.toNat = 57 from rfl] at h
  rcases h with ((((((h1 | h2) | h3) | h4) | h5) | h6) | h7)
  · constructor
    · omega
    · intro hc
      subst hc
      exact absurd h1 (by decide)
  · constructor
    · omega
    · intro hc
      subst hc
      exact absurd h2 (by decide)
  · constructor
    · omega
    · intro hc
      subst hc
      exact absurd h3 (by decide)
  · subst h4
    exact ⟨by decide, by decide⟩
  · subst h5
    exact ⟨by decide, by decide⟩
  · subst h6
    exact ⟨by decide, by decide⟩
  · subst h7
    exact ⟨by decide, by decide⟩

/-- An ASCII character encodes to its own single byte. -/
theorem utf8Bytes_ascii (c : Char) (h : c.toNat < 0x80) : utf8Bytes c = [c.toNat] := by
  unfold utf8Bytes
  rw [if_pos h]

/-- Every UTF-8 byte is below 256. -/
theorem utf8Bytes_lt (c : Char) : ∀ b ∈ utf8Bytes c, b < 256 := by
  have hc := char_toNat_lt c
  unfold utf8Bytes
  dsimp only
  split_ifs with h1 h2 h3 <;> intro b hb <;> simp only [List.mem_cons, List.mem_singleton,
    List.not_mem_nil, or_false] at hb
  · omega
  · rcases hb with hb | hb <;> omega
  · rcases hb with hb | hb | hb <;> omega
  · rcases hb with hb | hb | hb | hb <;> omega

/-- `hexVal` inverts `hexDigitU` on byte nibbles. -/
theorem hexVal_hexDigitU : ∀ n : ℕ, n < 16 → hexVal (hexDigitU n) = Option.some n := by
  decide

/-- `unquoteBytes` consumes one `%XX` escape as one byte. -/
theorem unquoteBytes_percentTriple (b : ℕ) (hb : b < 256) (rest : List Char) :
    unquoteBytes (percentTriple b ++ rest) = (unquoteBytes rest).map (fun bs => b :: bs) := by
  have h1 : hexVal (hexDigitU (b / 16)) = Option.some (b / 16) := hexVal_hexDigitU _ (by omega)
  have h2 : hexVal (hexDigitU (b % 16)) = Option.some (b % 16) := hexVal_hexDigitU _ (by omega)
  show unquoteBytes ('%' :: hexDigitU (b / 16) :: hexDigitU (b % 16) :: rest) = _
  rw [unquoteBytes, h1, h2]
  dsimp only
  have hb' : b / 16 * 16 + b % 16 = b := by omega
  rw [hb']

/-- `unquoteBytes` consumes a literal non-`%` ASCII character as its own
byte. -/
theorem unquoteBytes_literal (c : Char) (hc : c.toNat < 0x80) (hne : c ≠ '%') (rest : List Char) :
    unquoteBytes (c :: rest) = (unquoteBytes rest).map (fun bs => c.toNat :: bs) := by
  rw [unquoteBytes.eq_def]
  split
  · rename_i heq
    simp at heq
  · rename_i h1 h2 rest2 heq
    injection heq with he1 he2
    exact absurd he1 hne
  · rename_i c2 rest2 hovl heq
    injection heq with he1 he2
    subst he1
    subst he2
    rw [if_pos hc]

/-- A byte list below 256 percent-encodes and decodes back. -/
theorem unquoteBytes_flatMap_percentTriple (bs : List ℕ) (h : ∀ b ∈ bs, b < 256)
    (rest : List Char) :
    unquoteBytes (bs.flatMap percentTriple ++ rest) =
      (unquoteBytes rest).map (fun tail => bs ++ tail) := by
  induction bs with
  | nil =>
    simp
  | cons b more ih =>
    have hb : b < 256 := h b (List.mem_cons_self _ _)
    have hmore : ∀ x ∈ more, x < 256 := fun x hx => h x (List.mem_cons_of_mem _ hx)
    simp only [List.flatMap_cons, List.append_assoc]
    rw [unquoteBytes_percentTriple b hb, ih hmore]
    cases unquoteBytes rest <;> simp

/-- `unquoteBytes` recovers the UTF-8 bytes of one quoted character. -/
theorem unquoteBytes_quoteChar (c : Char) (rest : List Char) :
    unquoteBytes (quoteChar c ++ rest) =
      (unquoteBytes rest).map (fun tail => utf8Bytes c ++ tail) := by
  unfold quoteChar
  by_cases h : isUnreservedChar c
  · rw [if_pos h]
    obtain ⟨hascii, hne⟩ := isUnreserved_ascii c h
    rw [utf8Bytes_ascii c hascii]
    simpa using unquoteBytes_literal c hascii hne rest
  · rw [if_neg h]
    exact unquoteBytes_flatMap_percentTriple (utf8Bytes c) (utf8Bytes_lt c) rest

/-- `unquoteBytes` recovers the UTF-8 byte stream of a whole quoted string. -/
theorem unquoteBytes_quote (cs : List Char) (rest : List Char) :
    unquoteBytes (cs.flatMap quoteChar ++ rest) =
      (unquoteBytes rest).map (fun tail => cs.flatMap utf8Bytes ++ tail) := by
  induction cs with
  | nil => simp
  | cons c more ih =>
    simp only [List.flatMap_cons, List.append_assoc]
    rw [unquoteBytes_quoteChar c, ih]
    cases unquoteBytes rest <;> simp

/-- `unquoteBytes` maps a literal ASCII tail to its code points. -/
theorem unquoteBytes_ascii_tail (cs : List Char)
    (h : ∀ c ∈ cs, c.toNat < 0x80 ∧ c ≠ '%') :
    unquoteBytes cs = Option.some (cs.map Char.toNat) := by
  induction cs with
  | nil => rfl
  | cons c more ih =>
    obtain ⟨hc, hne⟩ := h c (List.mem_cons_self _ _)
    rw [unquoteBytes_literal c hc hne, ih (fun x hx => h x (List.mem_cons_of_mem _ hx))]
    rfl

/-- One UTF-8 decode step undoes the encoding of one character at the head of
a byte stream, leaving the remaining bytes untouched. -/
theorem utf8Step_utf8Bytes (c : Char) (bs : List ℕ) :
    utf8Step (utf8Bytes c ++ bs) = Option.some (c, bs) := by
  have hc := char_toNat_lt c
  unfold utf8Bytes
  dsimp only
  split_ifs with h1 h2 h3
  · show utf8Step (c.toNat :: bs) = _
    unfold utf8Step
    try dsimp only
    rw [if_pos h1, Char.ofNat_toNat]
  · show utf8Step ((0xc0 + c.toNat / 0x40) :: (0x80 + c.toNat % 0x40) :: bs) = _
    unfold utf8Step
    try dsimp only
    rw [if_neg (by omega), if_pos (show (0xc0:ℕ) ≤ 0xc0 + c.toNat / 0x40 ∧
      0xc0 + c.toNat / 0x40 < 0xe0 from by omega)]
    try dsimp only
    rw [if_pos (show (0x80:ℕ) ≤ 0x80 + c.toNat % 0x40 ∧ 0x80 + c.toNat % 0x40 < 0xc0 from by omega)]
    rw [show 0xc0 + c.toNat / 0x40 - 0xc0 = c.toNat / 0x40 from by omega,
        show 0x80 + c.toNat % 0x40 - 0x80 = c.toNat % 0x40 from by omega,
        show c.toNat / 0x40 * 0x40 + c.toNat % 0x40 = c.toNat from by omega,
        Char.ofNat_toNat]
  · show utf8Step ((0xe0 + c.toNat / 0x1000) :: (0x80 + (c.toNat / 0x40) % 0x40) ::
        (0x80 + c.toNat % 0x40) :: bs) = _
    unfold utf8Step
    try dsimp only
    rw [if_neg (by omega), if_neg (by omega), if_pos (show
      (0xe0:ℕ) ≤ 0xe0 + c.toNat / 0x1000 ∧ 0xe0 + c.toNat / 0x1000 < 0xf0 from by omega)]
    try dsimp only
    rw [if_pos (show ((0x80:ℕ) ≤ 0x80 + (c.toNat / 0x40) % 0x40 ∧
        0x80 + (c.toNat / 0x40) % 0x40 < 0xc0) ∧
        ((0x80:ℕ) ≤ 0x80 + c.toNat % 0x40 ∧ 0x80 + c.toNat % 0x40 < 0xc0) from by omega)]
    rw [show 0xe0 + c.toNat / 0x1000 - 0xe0 = c.toNat / 0x1000 from by omega,
        show 0x80 + (c.toNat / 0x40) % 0x40 - 0x80 = (c.toNat / 0x40) % 0x40 from by omega,
        show 0x80 + c.toNat % 0x40 - 0x80 = c.toNat % 0x40 from by omega,
        show c.toNat / 0x1000 * 0x1000 + (c.toNat / 0x40) % 0x40 * 0x40 + c.toNat % 0x40 =
          c.toNat from by omega,
        Char.ofNat_toNat]
  · show utf8Step ((0xf0 + c.toNat / 0x40000) :: (0x80 + (c.toNat / 0x1000) % 0x40) ::
        (0x80 + (c.toNat / 0x40) % 0x40) :: (0x80 + c.toNat % 0x40) :: bs) = _
    unfold utf8Step
    try dsimp only
    rw [if_neg (by omega), if_neg (by omega), if_neg (by omega), if_pos (show
      (0xf0:ℕ) ≤ 0xf0 + c.toNat / 0x40000 ∧ 0xf0 + c.toNat / 0x40000 < 0xf8 from by omega)]
    try dsimp only
    rw [if_pos (show ((0x80:ℕ) ≤ 0x80 + (c.toNat / 0x1000) % 0x40 ∧
        0x80 + (c.toNat / 0x1000) % 0x40 < 0xc0) ∧
        ((0x80:ℕ) ≤ 0x80 + (c.toNat / 0x40) % 0x40 ∧ 0x80 + (c.toNat / 0x40) % 0x40 < 0xc0) ∧
        ((0x80:ℕ) ≤ 0x80 + c.toNat % 0x40 ∧ 0x80 + c.toNat % 0x40 < 0xc0) from by omega)]
    rw [show 0xf0 + c.toNat / 0x40000 - 0xf0 = c.toNat / 0x40000 from by omega,
        show 0x80 + (c.toNat / 0x1000) % 0x40 - 0x80 = (c.toNat / 0x1000) % 0x40 from by omega,
        show 0x80 + (c.toNat / 0x40) % 0x40 - 0x80 = (c.toNat / 0x40) % 0x40 from by omega,
        show 0x80 + c.toNat % 0x40 - 0x80 = c.toNat % 0x40 from by omega,
        show c.toNat / 0x40000 * 0x40000 + (c.toNat / 0x1000) % 0x40 * 0x1000 +
          (c.toNat / 0x40) % 0x40 * 0x40 + c.toNat % 0x40 = c.toNat from by omega,
        Char.ofNat_toNat]

/-- The UTF-8 encoding of a character is never empty. -/
theorem utf8Bytes_ne_nil (c : Char) : utf8Bytes c ≠ [] := by
  unfold utf8Bytes
  dsimp only
  split_ifs <;> simp

/-- With enough fuel, the UTF-8 decode loop undoes the encoding of a whole
character list. -/
theorem utf8Run_encode (cs : List Char) : ∀ fuel : ℕ,
    (cs.flatMap utf8Bytes).length ≤ fuel →
    utf8Run fuel (cs.flatMap utf8Bytes) = Option.some cs := by
  induction cs with
  | nil =>
    intro fuel _
    cases fuel <;> rfl
  | cons c more ih =>
    intro fuel hf
    simp only [List.flatMap_cons] at hf ⊢
    have hne := utf8Bytes_ne_nil c
    obtain ⟨b0, tl, hb⟩ : ∃ b0 tl, utf8Bytes c = b0 :: tl := by
      cases hcase : utf8Bytes c with
      | nil => exact absurd hcase hne
      | cons x xs => exact ⟨x, xs, rfl⟩
    have hlen : 1 ≤ (utf8Bytes c).length := by rw [hb]; simp
    rw [List.length_append] at hf
    cases fuel with
    | zero => omega
    | succ f =>
      rw [hb, List.cons_append, utf8Run]
      rw [show b0 :: (tl ++ more.flatMap utf8Bytes) = utf8Bytes c ++ more.flatMap utf8Bytes from by
        rw [hb, List.cons_append]]
      rw [utf8Step_utf8Bytes]
      dsimp only
      rw [ih f (by omega)]
      rfl

/-- UTF-8 decoding undoes the encoding of a whole character list. -/
theorem utf8Decode_flatMap (cs : List Char) :
    utf8Decode (cs.flatMap utf8Bytes) = Option.some cs :=
  utf8Run_encode cs _ le_rfl

/-- ASCII characters encode to their own code points. -/
theorem flatMap_utf8Bytes_ascii (cs : List Char) (h : ∀ c ∈ cs, c.toNat < 0x80) :
    cs.flatMap utf8Bytes = cs.map Char.toNat := by
  induction cs with
  | nil => rfl
  | cons c more ih =>
    simp only [List.flatMap_cons, List.map_cons]
    rw [utf8Bytes_ascii c (h c (List.mem_cons_self _ _)),
      ih (fun x hx => h x (List.mem_cons_of_mem _ hx))]
    rfl

/-- A quoted string followed by a plain ASCII tail percent-decodes back to the
original string and tail. -/
theorem percentDecode_quote_append (s tail : String)
    (htail : ∀ c ∈ tail.data, c.toNat < 0x80 ∧ c ≠ '%') :
    percentDecode (quotePy s ++ tail) = Option.some (s ++ tail) := by
  unfold percentDecode quotePy
  rw [String.data_append]
  rw [show (String.mk (s.data.flatMap quoteChar)).data = s.data.flatMap quoteChar from rfl]
  rw [unquoteBytes_quote, unquoteBytes_ascii_tail tail.data htail]
  simp only [Option.map_some', Option.some_bind]
  rw [show tail.data.map Char.toNat = tail.data.flatMap utf8Bytes from
      (flatMap_utf8Bytes_ascii tail.data (fun c hc => (htail c hc).1)).symm,
    ← List.flatMap_append, utf8Decode_flatMap]
  rfl

/-- String append is associative (via the underlying character lists). -/
theorem strAppend_assoc (a b c : String) : (a ++ b) ++ c = a ++ (b ++ c) :=
  congrArg String.mk (List.append_assoc a.data b.data c.data)

/-- Every decimal representation of 1..99 as an integer string is plain ASCII
with no percent sign. -/
theorem intToString_digits_ascii : ∀ n : ℕ, n < 99 →
    ((toString (((n:ℤ)) + 1)).data.all
      (fun c => decide (c.toNat < 0x80) && decide (c ≠ '%'))) = true := by
  decide

/-- The bounded quantity lies in `[1, 99]`. -/
theorem boundedQuantity_mem (q : ℤ) : 1 ≤ boundedQuantity q ∧ boundedQuantity q ≤ 99 := by
  unfold boundedQuantity basketMaxQuantity
  omega

/-- The decimal string of a bounded quantity is plain ASCII with no percent
sign. -/
theorem boundedQuantity_toString_ascii (q : ℤ) :
    ∀ c ∈ (toString (boundedQuantity q)).data, c.toNat < 0x80 ∧ c ≠ '%' := by
  obtain ⟨h1, h2⟩ := boundedQuantity_mem q
  have hn : boundedQuantity q = ((boundedQuantity q - 1).toNat : ℤ) + 1 := by omega
  have hlt : (boundedQuantity q - 1).toNat < 99 := by omega
  intro c hc
  rw [hn] at hc
  have hall := intToString_digits_ascii _ hlt
  rw [List.all_eq_true] at hall
  have := hall c hc
  simp only [Bool.and_eq_true, decide_eq_true_eq] at this
  exact this

/-- C8 (counterexample to the literal claim): with an out-of-range quantity
(150), the synthesized permalink segment carries the clamped quantity 99, not
the original quantity, so a segment does not decode back to the original
`variant_id:quantity` pair. -/
theorem shopifyCheckoutUrl_quantity_counterexample :
    shopifyCheckoutUrl "https://acme.example" [("v1", (150:ℤ))] =
      "https://acme.example/cart/v1:99" ∧
    "https://acme.example/cart/v1:99" ≠ "https://acme.example/cart/v1:150" := by
  constructor
  · decide
  · decide

/-- C8 (amended): for every store URL whose trimmed form is non-empty and
every non-empty item list whose variant ids are non-blank after stripping,
`_shopify_checkout_url` returns the trimmed base followed by `/cart/` and the
comma-joined segments `quote(variant_id):bounded_quantity`, and every segment
percent-decodes back to the stripped variant id and the clamped quantity,
which lies in `[1, 99]`. -/
theorem shopifyCheckoutUrl_roundtrip (storeUrl : String) (items : List (String × ℤ))
    (hbase : rstripSlashes (pyStrip storeUrl) ≠ "")
    (hitems : items ≠ [])
    (hids : ∀ it ∈ items, pyStrip it.1 ≠ "") :
    shopifyCheckoutUrl storeUrl items =
      rstripSlashes (pyStrip storeUrl) ++ "/cart/" ++
        String.intercalate "," (items.map (fun it =>
          quotePy (pyStrip it.1) ++ ":" ++ toString (boundedQuantity it.2))) ∧
    ∀ it ∈ items,
      percentDecode (quotePy (pyStrip it.1) ++ ":" ++ toString (boundedQuantity it.2)) =
        Option.some (pyStrip it.1 ++ ":" ++ toString (boundedQuantity it.2)) ∧
      1 ≤ boundedQuantity it.2 ∧ boundedQuantity it.2 ≤ 99 := by
  constructor
  · unfold shopifyCheckoutUrl
    dsimp only
    rw [if_neg hbase]
    rw [List.filter_eq_self.mpr (fun a ha => by simpa using hids a ha)]
    have hne : (items.map (fun it =>
        quotePy (pyStrip it.1) ++ ":" ++ toString (boundedQuantity it.2))).isEmpty = false := by
      cases items with
      | nil => exact absurd rfl hitems
      | cons a l => rfl
    rw [hne]
    rfl
  · intro it hit
    refine ⟨?_, boundedQuantity_mem it.2⟩
    have htail : ∀ c ∈ (":" ++ toString (boundedQuantity it.2)).data,
        c.toNat < 0x80 ∧ c ≠ '%' := by
      intro c hc
      rw [String.data_append] at hc
      rcases List.mem_append.mp hc with h | h
      · rw [show (":" : String).data = [':'] from rfl] at h
        have hcc := List.mem_singleton.mp h
        subst hcc
        exact ⟨by decide, by decide⟩
      · exact boundedQuantity_toString_ascii it.2 c h
    have h := percentDecode_quote_append (pyStrip it.1)
      (":" ++ toString (boundedQuantity it.2)) htail
    rw [← strAppend_assoc, ← strAppend_assoc (pyStrip it.1)] at h
    exact h

/-- C8 witness: the amended round-trip theorem applied to a concrete store
URL and item list. -/
theorem shopifyCheckoutUrl_roundtrip_witness :
    shopifyCheckoutUrl "https://acme.example/" [("v1", (150:ℤ))] =
      rstripSlashes (pyStrip "https://acme.example/") ++ "/cart/" ++
        String.intercalate "," (([("v1", (150:ℤ))]).map (fun it =>
          quotePy (pyStrip it.1) ++ ":" ++ toString (boundedQuantity it.2))) ∧
    ∀ it ∈ [("v1", (150:ℤ))],
      percentDecode (quotePy (pyStrip it.1) ++ ":" ++ toString (boundedQuantity it.2)) =
        Option.some (pyStrip it.1 ++ ":" ++ toString (boundedQuantity it.2)) ∧
      1 ≤ boundedQuantity it.2 ∧ boundedQuantity it.2 ≤ 99 :=
  shopifyCheckoutUrl_roundtrip "https://acme.example/" [("v1", 150)]
    (by decide) (by decide) (by decide)

/-- Normalizing a list of plain strings without a key is the identity. -/
theorem normalizeItems_strs (us : List String) (ks : List String) :
    normalizeItems (us.map PyVal.str) ks = us.map PyVal.str := by
  induction us with
  | nil => rfl
  | cons u rest ih =>
    have h : normalizeItems (PyVal.str u :: rest.map PyVal.str) ks =
        (normalizeItems (rest.map PyVal.str) ks).cons (PyVal.str u) := rfl
    rw [List.map_cons, h, ih]

/-- C7: a checkout intent on a resolvable, non-empty basket whose store
platform is not `shopify` returns (without rewriting any stored state: the
output state is the input state, so the basket status and checkout URL
columns are untouched) a formatted payload whose entries carry
`supported = false`, `reason = "unsupported_platform"`,
`manual_checkout = true` and `product_urls` equal to the basket lines'
non-empty product URLs. -/
theorem createCheckoutIntent_unsupported_platform
    (st : ShopState) (basketId : String) (slug : Option String) (mark : Bool)
    (rbid ssl : String) (bpe : List (String × PyVal)) (store : StoreRow)
    (hscope : resolveBasketScope st basketId slug true = .ok (rbid, ssl))
    (hfetch : fetchBasketPayload st rbid (Option.some ssl) = Option.some (.obj bpe))
    (hrows : basketItemsSorted st rbid ≠ [])
    (hstore : findStore st ssl = Option.some store)
    (hplat : storeMetaPlatform store ≠ "shopify") :
    ∃ entries,
      createCheckoutIntent st basketId slug mark = .ok (.obj entries, st) ∧
      lookupKey entries "supported" = Option.some (.bool false) ∧
      lookupKey entries "reason" = Option.some (.str "unsupported_platform") ∧
      lookupKey entries "manual_checkout" = Option.some (.bool true) ∧
      lookupKey entries "product_urls" = Option.some (.list
        ((((basketItemsSorted st rbid).map (fun it => it.productUrl)).filter
          (fun u => u ≠ "")).map PyVal.str)) := by
  have hie : ¬((basketItemsSorted st rbid).isEmpty = true) := by
    cases h : basketItemsSorted st rbid with
    | nil => exact absurd h hrows
    | cons a l => simp
  unfold createCheckoutIntent
  rw [hscope]
  dsimp only
  rw [hfetch]
  dsimp only
  rw [if_neg hie]
  rw [hstore]
  dsimp only
  rw [if_pos hplat]
  refine ⟨[("supported", PyVal.bool false), ("reason", PyVal.str "unsupported_platform"),
    ("platform", PyVal.str (storeMetaPlatform store)), ("store_slug", PyVal.str ssl),
    ("basket_id", PyVal.str rbid), ("manual_checkout", PyVal.bool true),
    ("message", PyVal.str "Prefilled checkout links are only supported for Shopify stores."),
    ("basket", PyVal.obj (normalizeEntries bpe (arrayKeyHints ++ ["items", "product_urls"]))),
    ("product_urls", PyVal.list (normalizeItems
      ((((basketItemsSorted st rbid).map (fun it => it.productUrl)).filter
        (fun u => u ≠ "")).map PyVal.str)
      (arrayKeyHints ++ ["items", "product_urls"])))],
    rfl, rfl, rfl, rfl, ?_⟩
  rw [normalizeItems_strs]
  rfl

/-- C7 witness: the unsupported-platform theorem applied to a concrete
WooCommerce store with one active basket holding one line. -/
theorem createCheckoutIntent_unsupported_platform_witness :
    ∃ entries,
      createCheckoutIntent exampleState "b1" Option.none false = .ok (.obj entries, exampleState) ∧
      lookupKey entries "supported" = Option.some (.bool false) ∧
      lookupKey entries "reason" = Option.some (.str "unsupported_platform") ∧
      lookupKey entries "manual_checkout" = Option.some (.bool true) ∧
      lookupKey entries "product_urls" = Option.some (.list
        ((((basketItemsSorted exampleState "b1").map (fun it => it.productUrl)).filter
          (fun u => u ≠ "")).map PyVal.str)) :=
  createCheckoutIntent_unsupported_platform exampleState "b1" Option.none false
    "b1" "acme" _ exampleStore rfl rfl
    (fun h => absurd (congrArg List.length h) (by decide)) rfl (by decide)

/-- `_touch_basket` rewrites only the matching basket header's `updated_at`;
`find` on the touched table is `find` on the original with that rewrite. -/
theorem findBasket_touchBasket (st : ShopState) (tid bid : String) :
    findBasket (touchBasket st tid) bid = (findBasket st bid).map
      (fun b => if b.basketId = tid then { b with updatedAt := Option.some st.now } else b) := by
  unfold findBasket touchBasket
  dsimp only
  induction st.baskets with
  | nil => rfl
  | cons b rest ih =>
    rw [List.map_cons]
    by_cases hb : b.basketId = bid
    · have hfb : ((if b.basketId = tid then { b with updatedAt := Option.some st.now }
          else b).basketId = bid) := by
        split <;> exact hb
      rw [List.find?_cons_of_pos _ (by simpa using hfb),
        List.find?_cons_of_pos _ (by simpa using hb)]
      rfl
    · have hfb : ¬((if b.basketId = tid then { b with updatedAt := Option.some st.now }
          else b).basketId = bid) := by
        split <;> exact hb
      rw [List.find?_cons_of_neg _ (by simpa using hfb),
        List.find?_cons_of_neg _ (by simpa using hb), ih]

/-- `_fetch_basket` succeeds whenever the basket header exists and its
stripped store slug equals the expected slug. -/
theorem fetchBasketPayload_isSome (st : ShopState) (bid ssl : String) (header : BasketRow)
    (hfind : findBasket st bid = Option.some header)
    (hslug : pyStrip header.storeSlug = ssl) :
    ∃ p, fetchBasketPayload st bid (Option.some ssl) = Option.some p := by
  unfold fetchBasketPayload
  rw [hfind]
  dsimp only
  rw [if_neg (by simp [hslug])]
  exact ⟨_, rfl⟩

/-- A successful basket-scope resolution names an existing basket header
whose stripped store slug is the resolved slug. -/
theorem resolveBasketScope_ok_inv (st : ShopState) (basketId : String) (slug : Option String)
    (allow : Bool) (rbid ssl : String)
    (h : resolveBasketScope st basketId slug allow = .ok (rbid, ssl)) :
    ∃ header, findBasket st rbid = Option.some header ∧ pyStrip header.storeSlug = ssl := by
  unfold resolveBasketScope at h
  by_cases h1 : pyStrip basketId = ""
  · rw [if_pos h1] at h; cases h
  · rw [if_neg h1] at h
    cases hf : findBasket st (pyStrip basketId) with
    | none => rw [hf] at h; cases h
    | some header =>
      rw [hf] at h
      dsimp only at h
      by_cases h2 : pyStrip header.storeSlug = ""
      · rw [if_pos h2] at h; cases h
      · rw [if_neg h2] at h
        by_cases h3 : (decide (pyStrip (slug.getD "") ≠ "") &&
            decide (pyStrip (slug.getD "") ≠ pyStrip header.storeSlug)) = true
        · rw [if_pos h3] at h; cases h
        · rw [if_neg h3] at h
          by_cases h4 : pyLower (pyStrip (if header.status = "" then "active"
              else header.status)) ≠ "active"
          · rw [if_pos h4] at h
            by_cases h5 : (allow && decide (pyLower (pyStrip (if header.status = "" then "active"
                else header.status)) = "checked_out")) = true
            · rw [if_pos h5] at h
              simp only [Except.ok.injEq, Prod.mk.injEq] at h
              obtain ⟨ha, hb⟩ := h
              subst ha; subst hb
              exact ⟨header, hf, rfl⟩
            · rw [if_neg h5] at h; cases h
          · rw [if_neg h4] at h
            simp only [Except.ok.injEq, Prod.mk.injEq] at h
            obtain ⟨ha, hb⟩ := h
            subst ha; subst hb
            exact ⟨header, hf, rfl⟩

/-- `_update_basket_item`'s shared tail succeeds (touching the basket)
whenever the basket header exists under the expected slug. -/
theorem finishBasketUpdate_ok (st : ShopState) (bid ssl : String) (header : BasketRow)
    (hfind : findBasket st bid = Option.some header)
    (hslug : pyStrip header.storeSlug = ssl) :
    ∃ p, finishBasketUpdate st bid ssl = .ok (p, touchBasket st bid) := by
  have hfind2 : findBasket (touchBasket st bid) bid =
      Option.some (if header.basketId = bid then { header with updatedAt := Option.some st.now }
        else header) := by
    rw [findBasket_touchBasket, hfind]
    rfl
  obtain ⟨p, hp⟩ := fetchBasketPayload_isSome (touchBasket st bid) bid ssl _ hfind2
    (by split <;> exact hslug)
  unfold finishBasketUpdate
  dsimp only
  rw [hp]
  exact ⟨_, rfl⟩

/-- C9: `_remove_from_basket` is definitionally `_update_basket_item` called
with `quantity = 0` (same result, same state effect); and whenever the
variant id is non-blank and the basket scope resolves, the call succeeds and
the resulting stored items are the original items with the
`(basket_id, variant_id)` line deleted. -/
theorem removeFromBasket_equiv_update
    (st : ShopState) (basketId variantId : String) (slug : Option String)
    (rbid ssl : String)
    (hvar : pyStrip variantId ≠ "")
    (hscope : resolveBasketScope st basketId slug false = .ok (rbid, ssl)) :
    removeFromBasket st basketId variantId slug =
      updateBasketItem st basketId variantId 0 slug ∧
    ∃ payload st2,
      removeFromBasket st basketId variantId slug = .ok (payload, st2) ∧
      st2.items = st.items.filter (fun it =>
        ¬(it.basketId = rbid ∧ it.variantId = pyStrip variantId)) ∧
      ∀ it ∈ st2.items, ¬(it.basketId = rbid ∧ it.variantId = pyStrip variantId) := by
  obtain ⟨header, hfind, hslug⟩ := resolveBasketScope_ok_inv st basketId slug false rbid ssl hscope
  refine ⟨rfl, ?_⟩
  unfold removeFromBasket updateBasketItem
  dsimp only
  rw [if_neg hvar]
  rw [hscope]
  dsimp only
  rw [if_pos (le_refl (0:ℤ))]
  obtain ⟨p, hp⟩ := finishBasketUpdate_ok
    { st with items := st.items.filter (fun it =>
        ¬(it.basketId = rbid ∧ it.variantId = pyStrip variantId)) } rbid ssl header hfind hslug
  rw [hp]
  refine ⟨p, _, rfl, rfl, ?_⟩
  intro it hit
  have hit2 : it ∈ st.items.filter (fun it =>
      ¬(it.basketId = rbid ∧ it.variantId = pyStrip variantId)) := hit
  have hprop := List.of_mem_filter hit2
  simp only [decide_eq_true_eq] at hprop
  exact hprop

/-- C9 witness: removing the only line of the concrete example basket. -/
theorem removeFromBasket_equiv_update_witness :
    (removeFromBasket exampleState "b1" "v1" Option.none =
      updateBasketItem exampleState "b1" "v1" 0 Option.none) ∧
    ∃ payload st2,
      removeFromBasket exampleState "b1" "v1" Option.none = .ok (payload, st2) ∧
      st2.items = exampleState.items.filter (fun it =>
        ¬(it.basketId = "b1" ∧ it.variantId = pyStrip "v1")) ∧
      ∀ it ∈ st2.items, ¬(it.basketId = "b1" ∧ it.variantId = pyStrip "v1") :=
  removeFromBasket_equiv_update exampleState "b1" "v1" Option.none "b1" "acme"
    (by decide) rfl
